import Mathlib

/-!
Verification of the JARVISv4 ECF controller core against its specification.

We shallow-embed the Python sources:
  backend/memory/working_state.py   (WorkingStateManager)
  backend/agents/planner/planner.py (PlannerAgent._validate_plan)
  backend/agents/executor/executor.py (ExecutorAgent.execute_step)
  backend/core/controller.py        (ECFController.run_task / resume_task /
                                     _execute_with_workflow_engine, SimpleToolNode)
  backend/controller/engine/engine.py (WorkflowEngine)

JSON values are modelled by an inductive `JVal`; Python dicts by insertion-ordered
association lists (CPython dicts preserve insertion order; `d[k] = v` keeps the
position of an existing key and appends a new one).  Machine-level details that the
claims do not touch (real clocks, the LLM, the network, tool side effects) are
parameters of the model.  Python exceptions are modelled by `PyExc` values carrying
the exception class name and message.
-/

/-- JSON-like values as stored in task files and passed around the controller. -/
inductive JVal : Type where
  | null : JVal
  | str : String → JVal
  | num : Int → JVal
  | bool : Bool → JVal
  | arr : List JVal → JVal
  | obj : List (String × JVal) → JVal
deriving Repr

namespace JVal

mutual
/-- Structural equality of JSON values (Python `==` on these shapes). -/
def beqVal : JVal → JVal → Bool
  | .null, .null => true
  | .str a, .str b => a == b
  | .num a, .num b => a == b
  | .bool a, .bool b => a == b
  | .arr a, .arr b => beqList a b
  | .obj a, .obj b => beqFields a b
  | _, _ => false

def beqList : List JVal → List JVal → Bool
  | [], [] => true
  | a :: as, b :: bs => beqVal a b && beqList as bs
  | _, _ => false

def beqFields : List (String × JVal) → List (String × JVal) → Bool
  | [], [] => true
  | (ka, va) :: as, (kb, vb) :: bs => ka == kb && beqVal va vb && beqFields as bs
  | _, _ => false
end

instance : BEq JVal := ⟨beqVal⟩

mutual
theorem beqVal_refl : ∀ v : JVal, beqVal v v = true
  | .null => rfl
  | .str a => by simp [beqVal]
  | .num a => by simp [beqVal]
  | .bool a => by simp [beqVal]
  | .arr a => by simpa [beqVal] using beqList_refl a
  | .obj a => by simpa [beqVal] using beqFields_refl a

theorem beqList_refl : ∀ l : List JVal, beqList l l = true
  | [] => rfl
  | a :: as => by simp [beqList, beqVal_refl a, beqList_refl as]

theorem beqFields_refl : ∀ l : List (String × JVal), beqFields l l = true
  | [] => rfl
  | (k, v) :: as => by simp [beqFields, beqVal_refl v, beqFields_refl as]
end

mutual
theorem beqVal_eq : ∀ a b : JVal, beqVal a b = true → a = b
  | .null, .null, _ => rfl
  | .str a, .str b, h => by simpa [beqVal] using congrArg JVal.str (by simpa [beqVal] using h)
  | .num a, .num b, h => by simpa [beqVal] using congrArg JVal.num (by simpa [beqVal] using h)
  | .bool a, .bool b, h => by
      have : a = b := by simpa [beqVal] using h
      exact this ▸ rfl
  | .arr a, .arr b, h => by
      have : a = b := beqList_eq a b (by simpa [beqVal] using h)
      exact this ▸ rfl
  | .obj a, .obj b, h => by
      have : a = b := beqFields_eq a b (by simpa [beqVal] using h)
      exact this ▸ rfl
  | .null, .str _, h => by simp [beqVal] at h
  | .null, .num _, h => by simp [beqVal] at h
  | .null, .bool _, h => by simp [beqVal] at h
  | .null, .arr _, h => by simp [beqVal] at h
  | .null, .obj _, h => by simp [beqVal] at h
  | .str _, .null, h => by simp [beqVal] at h
  | .str _, .num _, h => by simp [beqVal] at h
  | .str _, .bool _, h => by simp [beqVal] at h
  | .str _, .arr _, h => by simp [beqVal] at h
  | .str _, .obj _, h => by simp [beqVal] at h
  | .num _, .null, h => by simp [beqVal] at h
  | .num _, .str _, h => by simp [beqVal] at h
  | .num _, .bool _, h => by simp [beqVal] at h
  | .num _, .arr _, h => by simp [beqVal] at h
  | .num _, .obj _, h => by simp [beqVal] at h
  | .bool _, .null, h => by simp [beqVal] at h
  | .bool _, .str _, h => by simp [beqVal] at h
  | .bool _, .num _, h => by simp [beqVal] at h
  | .bool _, .arr _, h => by simp [beqVal] at h
  | .bool _, .obj _, h => by simp [beqVal] at h
  | .arr _, .null, h => by simp [beqVal] at h
  | .arr _, .str _, h => by simp [beqVal] at h
  | .arr _, .num _, h => by simp [beqVal] at h
  | .arr _, .bool _, h => by simp [beqVal] at h
  | .arr _, .obj _, h => by simp [beqVal] at h
  | .obj _, .null, h => by simp [beqVal] at h
  | .obj _, .str _, h => by simp [beqVal] at h
  | .obj _, .num _, h => by simp [beqVal] at h
  | .obj _, .bool _, h => by simp [beqVal] at h
  | .obj _, .arr _, h => by simp [beqVal] at h

theorem beqList_eq : ∀ a b : List JVal, beqList a b = true → a = b
  | [], [], _ => rfl
  | [], _ :: _, h => by simp [beqList] at h
  | _ :: _, [], h => by simp [beqList] at h
  | a :: as, b :: bs, h => by
      have h1 : beqVal a b = true ∧ beqList as bs = true := by
        simpa [beqList, Bool.and_eq_true] using h
      rw [beqVal_eq a b h1.1, beqList_eq as bs h1.2]

theorem beqFields_eq : ∀ a b : List (String × JVal), beqFields a b = true → a = b
  | [], [], _ => rfl
  | [], _ :: _, h => by simp [beqFields] at h
  | _ :: _, [], h => by simp [beqFields] at h
  | (ka, va) :: as, (kb, vb) :: bs, h => by
      have h1 : (ka == kb) = true ∧ beqVal va vb = true ∧ beqFields as bs = true := by
        simpa [beqFields, Bool.and_eq_true, and_assoc] using h
      have hk : ka = kb := by simpa using h1.1
      rw [hk, beqVal_eq va vb h1.2.1, beqFields_eq as bs h1.2.2]
end

instance : DecidableEq JVal := fun a b =>
  if h : beqVal a b = true then .isTrue (beqVal_eq a b h)
  else .isFalse (fun he => h (he ▸ beqVal_refl a))

end JVal

/-- A Python dict with string keys, as an insertion-ordered association list. -/
abbrev Obj := List (String × JVal)

/-- `d.get(k)`: the value of the first binding of `k`, if present. -/
def getKey (o : Obj) (k : String) : Option JVal :=
  match o with
  | [] => none
  | (k', v) :: rest => if k' = k then some v else getKey rest k

/-- `d[k] = v`: replace the value at `k` in place, or append the new key. -/
def setKey (o : Obj) (k : String) (v : JVal) : Obj :=
  match o with
  | [] => [(k, v)]
  | (k', v') :: rest => if k' = k then (k', v) :: rest else (k', v') :: setKey rest k v

/-- `d.update(patch)`: apply the patch bindings left to right. -/
def mergeObj (o patch : Obj) : Obj :=
  patch.foldl (fun acc kv => setKey acc kv.1 kv.2) o

theorem getKey_setKey_same (o : Obj) (k : String) (v : JVal) :
    getKey (setKey o k v) k = some v := by
  induction o with
  | nil => simp [setKey, getKey]
  | cons hd tl ih =>
      obtain ⟨k', v'⟩ := hd
      by_cases h : k' = k
      · simp [setKey, getKey, h]
      · simp [setKey, getKey, h, ih]

theorem getKey_setKey_other (o : Obj) (k k2 : String) (v : JVal) (hne : k ≠ k2) :
    getKey (setKey o k v) k2 = getKey o k2 := by
  induction o with
  | nil => simp [setKey, getKey, hne]
  | cons hd tl ih =>
      obtain ⟨k', v'⟩ := hd
      by_cases h : k' = k
      · subst h
        simp [setKey, getKey, hne]
      · simp [setKey, getKey, h, ih]

/-- Keys untouched by a patch keep their values under `mergeObj`. -/
theorem getKey_mergeObj_not_mem (o : Obj) (patch : Obj) (k : String)
    (h : ∀ kv ∈ patch, kv.1 ≠ k) : getKey (mergeObj o patch) k = getKey o k := by
  induction patch generalizing o with
  | nil => simp [mergeObj]
  | cons hd tl ih =>
      have hhd : hd.1 ≠ k := h hd (List.mem_cons_self _ _)
      have htl : ∀ kv ∈ tl, kv.1 ≠ k := fun kv hm => h kv (List.mem_cons_of_mem _ hm)
      simp only [mergeObj, List.foldl_cons]
      rw [show (List.foldl (fun acc kv => setKey acc kv.1 kv.2) (setKey o hd.1 hd.2) tl)
            = mergeObj (setKey o hd.1 hd.2) tl from rfl,
          ih _ htl, getKey_setKey_other _ _ _ _ hhd]

/-- The last binding of a key in the patch wins under `mergeObj`. -/
theorem getKey_mergeObj_last (o : Obj) (pre : Obj) (k : String) (v : JVal) (suf : Obj)
    (hsuf : ∀ kv ∈ suf, kv.1 ≠ k) :
    getKey (mergeObj o (pre ++ (k, v) :: suf)) k = some v := by
  induction pre generalizing o with
  | nil =>
      simp only [List.nil_append, mergeObj, List.foldl_cons]
      rw [show (List.foldl (fun acc kv => setKey acc kv.1 kv.2) (setKey o k v) suf)
            = mergeObj (setKey o k v) suf from rfl,
          getKey_mergeObj_not_mem _ _ _ hsuf, getKey_setKey_same]
  | cons hd tl ih =>
      simp only [List.cons_append, mergeObj, List.foldl_cons]
      exact ih (setKey o hd.1 hd.2)

/-- Python truthiness of a JSON value. -/
def truthy : JVal → Bool
  | .null => false
  | .str s => s ≠ ""
  | .num n => n ≠ 0
  | .bool b => b
  | .arr xs => xs ≠ []
  | .obj fs => fs ≠ []

/-- Python truthiness of `d.get(k)` (absent keys give `None`, which is falsy). -/
def truthyOpt : Option JVal → Bool
  | none => false
  | some v => truthy v

/-- Python `a or b` on an optional dict lookup: keep `a` when truthy, else `b`. -/
def pyOr (a : Option JVal) (b : JVal) : JVal :=
  match a with
  | some v => if truthy v then v else b
  | none => b

/-- Python `str()` of a JSON scalar (containers are rendered structurally with
`repr`-style quoting; the claims only exercise scalar ids). -/
def pyStr : JVal → String
  | .null => "None"
  | .str s => s
  | .num n => toString n
  | .bool b => if b then "True" else "False"
  | .arr _ => "<list>"
  | .obj _ => "<dict>"

/-- A Python exception: class name plus message. -/
structure PyExc where
  ty : String
  msg : String
deriving Repr, DecidableEq

deriving instance DecidableEq for Except

/-- `List.isPrefixOf`-based substring search, kept structurally recursive so the
kernel can evaluate it. -/
def listContains (l pat : List Char) : Bool :=
  match l with
  | [] => pat.isEmpty
  | _ :: t => pat.isPrefixOf l || listContains t pat

/-- Python `s.startswith(p)`. -/
def strStartsWith (s p : String) : Bool := p.data.isPrefixOf s.data

/-- Python `sub in s` (substring containment). -/
def strContains (s sub : String) : Bool := listContains s.data sub.data

/-!
## Durable task store — `backend/memory/working_state.py`

A single task's on-disk lifecycle: the active file `tasks/<task_id>.json` and the
archive.  The atomic temp-write-then-rename of `update_task` appears as one
indivisible replacement of the file contents; a failed write (modelled by the
`writeRaises` flag) unlinks the temp file and leaves the target untouched, exactly
as the `except` clause in the source does.
-/

/-- `REQUIRED_FIELDS` from working_state.py. -/
def REQUIRED_FIELDS : List String :=
  ["task_id", "goal", "status", "domain", "constraints",
   "current_step", "completed_steps", "next_steps", "metadata"]

/-- Fields of `REQUIRED_FIELDS` absent from a state dict. -/
def missingFields (state : Obj) : List String :=
  REQUIRED_FIELDS.filter (fun f => (getKey state f).isNone)

/-- `WorkingStateManager._validate_state`. -/
def validate_state (state : Obj) : Except PyExc Unit :=
  match missingFields state with
  | [] => .ok ()
  | ms => .error ⟨"ValueError",
      "Missing required working state fields: " ++ String.intercalate ", " ms⟩

/-- On-disk state of one task: the active JSON file and the archive directory. -/
structure Store where
  file : Option Obj
  archived : List (Obj × String)
deriving Repr, DecidableEq

/-- The empty storage directory. -/
def Store.empty : Store := ⟨none, []⟩

/-- The initial state dict built by `WorkingStateManager.create_task`. -/
def create_state (spec : Obj) (taskId now : String) : Obj :=
  [("task_id", .str taskId),
   ("goal", (getKey spec "goal").getD (.str "No goal specified")),
   ("status", .str "CREATED"),
   ("domain", (getKey spec "domain").getD (.str "general")),
   ("constraints", (getKey spec "constraints").getD (.arr [])),
   ("current_step", .null),
   ("completed_steps", .arr []),
   ("next_steps", (getKey spec "next_steps").getD (.arr [])),
   ("metadata", .obj [("created_at", .str now),
                      ("priority", (getKey spec "priority").getD (.str "normal"))])]

/-- `WorkingStateManager.create_task`: validate the fresh state and write the file. -/
def create_task (spec : Obj) (taskId now : String) (st : Store) :
    Except PyExc (Store × Obj) :=
  let state := create_state spec taskId now
  match validate_state state with
  | .error e => .error e
  | .ok _ => .ok ({ st with file := some state }, state)

/-- `WorkingStateManager.load_task`: FileNotFoundError when absent, then the
defensive required-fields check. -/
def load_task (st : Store) : Except PyExc Obj :=
  match st.file with
  | none => .error ⟨"FileNotFoundError", "Task file not found"⟩
  | some state =>
      match validate_state state with
      | .error e => .error e
      | .ok _ => .ok state

/-- `WorkingStateManager.update_task`: load, merge the patch, validate, then
atomically replace the file.  `writeRaises` injects a failure of the temp-file
write; the source then unlinks the temp file and re-raises, leaving the target
untouched. -/
def update_task (writeRaises : Bool) (st : Store) (patch : Obj) :
    Except PyExc (Store × Obj) :=
  match load_task st with
  | .error e => .error e
  | .ok state =>
      let merged := mergeObj state patch
      match validate_state merged with
      | .error e => .error e
      | .ok _ =>
          if writeRaises then .error ⟨"OSError", "write failed"⟩
          else .ok ({ st with file := some merged }, merged)

/-- `WorkingStateManager.complete_step` exactly as defined in the source: it takes
only `step_index`, `outcome`, `artifact`, `tool_name` and `tool_params` (there are
no timestamp/duration parameters in its signature). -/
def complete_step (now : String) (st : Store) (step_index : Int)
    (outcome : String) (artifact tool_name tool_params : JVal) :
    Except PyExc (Store × Obj) :=
  match load_task st with
  | .error e => .error e
  | .ok state =>
      if ¬ truthyOpt (getKey state "current_step") then
        .error ⟨"ValueError", "No active step to complete"⟩
      else
        match getKey state "current_step" with
        | some (.obj cs) =>
            -- the index-mismatch branch only logs a warning; it is not an error
            let descr := (getKey cs "description").getD .null
            let completed_step : JVal := .obj
              [("index", .num step_index),
               ("description", descr),
               ("outcome", .str outcome),
               ("artifact", artifact),
               ("tool_name", tool_name),
               ("tool_params", tool_params),
               ("completed_at", .str now)]
            match getKey state "completed_steps" with
            | some (.arr csteps) =>
                let state' :=
                  setKey (setKey (setKey state
                    "completed_steps" (.arr (csteps ++ [completed_step])))
                    "current_step" .null)
                    "status" (.str "IN_PROGRESS")
                update_task false st state'
            | _ => .error ⟨"AttributeError", "completed_steps does not support append"⟩
        | _ => .error ⟨"AttributeError", "current_step is not a dict"⟩

/-- `WorkingStateManager.archive_task`: move the active file into the archive with
a reason suffix; FileNotFoundError when the active file is missing. -/
def archive_task (st : Store) (reason : String) : Except PyExc Store :=
  match st.file with
  | none => .error ⟨"FileNotFoundError", "Task file not found"⟩
  | some state => .ok ⟨none, st.archived ++ [(state, reason)]⟩

/-!
## Plan validator — `PlannerAgent._validate_plan` in `backend/agents/planner/planner.py`

The validator checks that the plan dict has a non-empty list under `"tasks"`,
builds `task_ids = set(str(t.get("id")))` and an adjacency dict
`adj = dict((str(t.get("id")), [str(d) for d in t.get("dependencies", [])]))`
(for duplicate ids the dict keeps the last value at the first key position),
rejects dependencies outside `task_ids`, and finally runs a depth-first search
with a `visited` set and an in-current-`path` set over every id.

Python iterates `task_ids` (a set) in an unspecified order; the model fixes the
first-occurrence order and the theorems below show the verdict is the same for
every enumeration order.  The DFS state additionally records, as `black`, the
order in which vertices finish; this ghost field is never read by the algorithm.
-/

/-- Keep the first occurrence of each element (CPython dict key order). -/
def firstDedup (l : List String) : List String := go [] l where
  go (seen : List String) : List String → List String
    | [] => []
    | a :: rest => if a ∈ seen then go seen rest else a :: go (a :: seen) rest

/-- `str(t.get("id"))` for one plan entry (AttributeError on a non-dict entry). -/
def planEntryId (t : JVal) : Except PyExc String :=
  match t with
  | .obj fs => .ok (pyStr ((getKey fs "id").getD .null))
  | _ => .error ⟨"AttributeError", "plan entry is not a dict"⟩

/-- `[str(d) for d in t.get("dependencies", [])]` for one plan entry.  A present
non-list value is modelled as a TypeError (the theorems only quantify over plans
whose `dependencies` values are lists or absent). -/
def planEntryDeps (t : JVal) : Except PyExc (List String) :=
  match t with
  | .obj fs =>
      match getKey fs "dependencies" with
      | none => .ok []
      | some (.arr ds) => .ok (ds.map pyStr)
      | some _ => .error ⟨"TypeError", "dependencies is not a list"⟩
  | _ => .error ⟨"AttributeError", "plan entry is not a dict"⟩

/-- The (id, dependency ids) pairs of all plan entries, in plan order. -/
def planEntries : List JVal → Except PyExc (List (String × List String))
  | [] => .ok []
  | t :: rest =>
      match planEntryId t with
      | .error e => .error e
      | .ok tid =>
          match planEntryDeps t with
          | .error e => .error e
          | .ok deps =>
              match planEntries rest with
              | .error e => .error e
              | .ok tail => .ok ((tid, deps) :: tail)

/-- `adj.get(v, [])`: the dependency list of the last entry declaring id `v`. -/
def adjLookup (entries : List (String × List String)) (v : String) : List String :=
  match entries.reverse.find? (fun e => e.1 = v) with
  | some e => e.2
  | none => []

/-- The `for tid, deps in adj.items(): for dep in deps: ...` reference check:
first missing dependency in dict iteration order, as (tid, dep). -/
def depCheckFind (entries : List (String × List String)) (ids : List String) :
    Option (String × String) := go (firstDedup (entries.map Prod.fst)) where
  go : List String → Option (String × String)
    | [] => none
    | tid :: rest =>
        match (adjLookup entries tid).find? (fun dep => ¬ dep ∈ ids) with
        | some dep => some (tid, dep)
        | none => go rest

/-- DFS state: the `visited` set, plus (ghost) the finish order `black`.  The
in-current-path set is the `path` argument of the functions below. -/
structure DfsSt where
  visited : List String
  black : List String
deriving Repr, DecidableEq

/-- The `for neighbor in adj.get(v, [])` loop of `has_cycle`: unvisited neighbors
recurse (through `visit`, the recursive `has_cycle` call at the next fuel level);
visited neighbors still on the current path report a cycle.  When the loop ends,
`v` is removed from the path (it finishes: appended to `black`). -/
def dfsNeighborsAux (adj : String → List String)
    (visit : String → List String → DfsSt → Bool × DfsSt) :
    List String → String → List String → DfsSt → Bool × DfsSt
  | [], v, _, st => (false, ⟨st.visited, st.black ++ [v]⟩)
  | n :: ns, v, path, st =>
      if n ∈ st.visited then
        if n ∈ path then (true, st)
        else dfsNeighborsAux adj visit ns v path st
      else
        match visit n path st with
        | (true, st') => (true, st')
        | (false, st') => dfsNeighborsAux adj visit ns v path st'

/-- `has_cycle(v)` from `_validate_plan`: mark `v` visited, push it on the path,
scan its neighbors.  `below` is the path before pushing `v`.  Fuel bounds the
recursion depth; the lemmas show one unit per distinct unvisited vertex is enough,
so the exhaustion branch is unreachable in `validate_plan`. -/
def dfsVisit (adj : String → List String) : Nat → String → List String → DfsSt →
    Bool × DfsSt
  | 0, _, _, st => (true, st)
  | fuel + 1, v, below, st =>
      dfsNeighborsAux adj (dfsVisit adj fuel) (adj v) v (v :: below)
        ⟨v :: st.visited, st.black⟩

/-- The `for tid in task_ids:` driver loop of the cycle check. -/
def dfsTop (adj : String → List String) (fuel : Nat) :
    List String → DfsSt → Bool × DfsSt
  | [], st => (false, st)
  | tid :: rest, st =>
      if tid ∈ st.visited then dfsTop adj fuel rest st
      else
        match dfsVisit adj fuel tid [] st with
        | (true, st') => (true, st')
        | (false, st') => dfsTop adj fuel rest st'

/-- `PlannerAgent._validate_plan`. -/
def validate_plan (plan : JVal) : Except PyExc Unit :=
  match plan with
  | .obj fs =>
      match getKey fs "tasks" with
      | some (.arr tasks) =>
          if tasks = [] then .error ⟨"InvalidPlanError", "Plan contains no tasks"⟩
          else
            match planEntries tasks with
            | .error e => .error e
            | .ok entries =>
                let idsAll := entries.map Prod.fst
                let ids := firstDedup idsAll
                match depCheckFind entries idsAll with
                | some (tid, dep) =>
                    .error ⟨"InvalidPlanError",
                      "Task " ++ tid ++ " depends on non-existent task " ++ dep⟩
                | none =>
                    if (dfsTop (adjLookup entries) ids.length ids ⟨[], []⟩).1 then
                      .error ⟨"InvalidPlanError", "Plan contains circular dependencies"⟩
                    else .ok ()
      | some _ => .error ⟨"InvalidPlanError", "Plan missing 'tasks' list"⟩
      | none => .error ⟨"InvalidPlanError", "Plan missing 'tasks' list"⟩
  | _ => .error ⟨"TypeError", "plan is not a dict"⟩

/-!
Specification-level graph notions used to state the DAG claims.
-/

/-- A list of vertices traversed along edges: each next element is a dependency of
the current one (`n ∈ adj u` is the edge `u → n`). -/
def EdgeChain (adj : String → List String) : List String → Prop
  | [] => True
  | [_] => True
  | a :: b :: rest => b ∈ adj a ∧ EdgeChain adj (b :: rest)

/-- `u` reaches `v` along at least one edge. -/
def ReachPlus (adj : String → List String) (u v : String) : Prop :=
  ∃ p : List String, EdgeChain adj (u :: p ++ [v])

/-- The dependency graph restricted to `univ` contains a cycle. -/
def HasCycle (adj : String → List String) (univ : List String) : Prop :=
  ∃ v ∈ univ, ReachPlus adj v v

/-- A DFS path in stack form (head is the current vertex): each vertex is a
dependency of the one below it. -/
def RevChain (adj : String → List String) : List String → Prop
  | [] => True
  | [_] => True
  | a :: b :: rest => a ∈ adj b ∧ RevChain adj (b :: rest)

/-!
Helper lemmas for the DFS correctness proof.
-/

theorem firstDedup_go_mem (l : List String) : ∀ seen a,
    a ∈ firstDedup.go seen l ↔ a ∈ l ∧ a ∉ seen := by
  induction l with
  | nil => intro seen a; simp [firstDedup.go]
  | cons b rest ih =>
      intro seen a
      by_cases hb : b ∈ seen
      · rw [firstDedup.go, if_pos hb, ih]
        constructor
        · rintro ⟨h1, h2⟩; exact ⟨List.mem_cons_of_mem _ h1, h2⟩
        · rintro ⟨h1, h2⟩
          rcases List.mem_cons.mp h1 with h | h
          · exact absurd (h ▸ hb) h2
          · exact ⟨h, h2⟩
      · rw [firstDedup.go, if_neg hb]
        constructor
        · intro hmem
          rcases List.mem_cons.mp hmem with h | h
          · subst h; exact ⟨List.mem_cons_self _ _, hb⟩
          · obtain ⟨h1, h2⟩ := (ih (b :: seen) a).mp h
            refine ⟨List.mem_cons_of_mem _ h1, fun hc => h2 (List.mem_cons_of_mem _ hc)⟩
        · rintro ⟨h1, h2⟩
          rcases List.mem_cons.mp h1 with h | h
          · exact h ▸ List.mem_cons_self _ _
          · by_cases hab : a = b
            · exact hab ▸ List.mem_cons_self _ _
            · refine List.mem_cons_of_mem _ ((ih (b :: seen) a).mpr ⟨h, ?_⟩)
              intro hc
              rcases List.mem_cons.mp hc with h' | h'
              · exact hab h'
              · exact h2 h'

theorem firstDedup_mem (l : List String) (a : String) :
    a ∈ firstDedup l ↔ a ∈ l := by
  simp [firstDedup, firstDedup_go_mem]

theorem firstDedup_go_nodup (l : List String) : ∀ seen,
    (firstDedup.go seen l).Nodup := by
  induction l with
  | nil => intro seen; simp [firstDedup.go]
  | cons b rest ih =>
      intro seen
      by_cases hb : b ∈ seen
      · rw [firstDedup.go, if_pos hb]; exact ih seen
      · rw [firstDedup.go, if_neg hb]
        refine List.nodup_cons.mpr ⟨?_, ih _⟩
        intro hc
        exact ((firstDedup_go_mem rest (b :: seen) b).mp hc).2 (List.mem_cons_self _ _)

theorem firstDedup_nodup (l : List String) : (firstDedup l).Nodup :=
  firstDedup_go_nodup l []

theorem firstDedup_of_nodup (l : List String) (h : l.Nodup) : firstDedup l = l := by
  suffices hgen : ∀ seen, (∀ a ∈ l, a ∉ seen) → firstDedup.go seen l = l by
    exact hgen [] (by simp)
  induction l with
  | nil => intro seen _; rfl
  | cons b rest ih =>
      intro seen hs
      have hb : b ∉ seen := hs b (List.mem_cons_self _ _)
      have hrest := (List.nodup_cons.mp h).2
      have hbrest := (List.nodup_cons.mp h).1
      rw [firstDedup.go, if_neg hb]
      congr 1
      exact ih hrest (b :: seen) (fun a ha => by
        intro hc
        rcases List.mem_cons.mp hc with h' | h'
        · exact hbrest (h' ▸ ha)
        · exact hs a (List.mem_cons_of_mem _ ha) h')

/-- Number of entries of `ids` not yet visited (the DFS fuel measure). -/
def unvisCount : List String → List String → Nat
  | [], _ => 0
  | a :: rest, vis => (if a ∈ vis then 0 else 1) + unvisCount rest vis

theorem unvisCount_mono (ids : List String) (vis vis' : List String)
    (h : ∀ u ∈ vis, u ∈ vis') : unvisCount ids vis' ≤ unvisCount ids vis := by
  induction ids with
  | nil => simp [unvisCount]
  | cons a rest ih =>
      by_cases ha : a ∈ vis
      · have ha' : a ∈ vis' := h a ha
        simpa [unvisCount, ha, ha'] using ih
      · by_cases ha' : a ∈ vis'
        · simp only [unvisCount, ha, ha', if_pos, if_neg, if_true, if_false]
          omega
        · simp only [unvisCount, ha, ha', if_neg]
          omega

theorem unvisCount_lt (ids : List String) (vis : List String) (v : String)
    (hv : v ∈ ids) (hnv : v ∉ vis) :
    unvisCount ids (v :: vis) < unvisCount ids vis := by
  induction ids with
  | nil => simp at hv
  | cons a rest ih =>
      have hmono := unvisCount_mono rest vis (v :: vis)
        (fun u hu => List.mem_cons_of_mem _ hu)
      by_cases hav : a = v
      · subst hav
        have h1 : a ∈ a :: vis := List.mem_cons_self _ _
        simp only [unvisCount, if_pos h1, if_neg hnv]
        omega
      · rcases List.mem_cons.mp hv with h | h
        · exact absurd h.symm hav
        · have hlt := ih h
          by_cases ha : a ∈ vis
          · have ha' : a ∈ v :: vis := List.mem_cons_of_mem _ ha
            simpa [unvisCount, ha, ha'] using hlt
          · have ha' : a ∉ v :: vis := by
              intro hc
              rcases List.mem_cons.mp hc with h' | h'
              · exact hav h'
              · exact ha h'
            simp only [unvisCount, ha, ha', if_neg]
            omega

theorem revChain_append_left (adj : String → List String) :
    ∀ l1 l2 : List String, RevChain adj (l1 ++ l2) → RevChain adj l1
  | [], _, _ => trivial
  | [_], _, _ => trivial
  | a :: b :: r, l2, h => by
      have h' : a ∈ adj b ∧ RevChain adj (b :: (r ++ l2)) := by
        simpa [RevChain] using h
      exact ⟨h'.1, revChain_append_left adj (b :: r) l2 h'.2⟩

theorem edgeChain_snoc (adj : String → List String) :
    ∀ (l : List String) (x n : String), EdgeChain adj l → l.getLast? = some x →
      n ∈ adj x → EdgeChain adj (l ++ [n])
  | [], x, n, _, hlast, _ => by simp at hlast
  | [a], x, n, _, hlast, hn => by
      have : a = x := by simpa using hlast
      subst this
      simpa [EdgeChain] using hn
  | a :: b :: r, x, n, hch, hlast, hn => by
      have h' : b ∈ adj a ∧ EdgeChain adj (b :: r) := by simpa [EdgeChain] using hch
      have hlast' : (b :: r).getLast? = some x := by
        simpa [List.getLast?_cons_cons] using hlast
      have := edgeChain_snoc adj (b :: r) x n h'.2 hlast' hn
      simpa [EdgeChain] using ⟨h'.1, this⟩

theorem revChain_reverse_edgeChain (adj : String → List String) :
    ∀ l : List String, RevChain adj l → EdgeChain adj l.reverse
  | [], _ => trivial
  | [_], _ => trivial
  | a :: b :: r, h => by
      have h' : a ∈ adj b ∧ RevChain adj (b :: r) := by simpa [RevChain] using h
      have ih := revChain_reverse_edgeChain adj (b :: r) h'.2
      have hlast : (b :: r).reverse.getLast? = some b := by
        rw [List.getLast?_reverse]; rfl
      have := edgeChain_snoc adj (b :: r).reverse b a ih hlast h'.1
      simpa [List.reverse_cons] using this

/-- A back edge from the head of a DFS path to some vertex on the path closes a
cycle through that vertex. -/
theorem cycle_of_backedge (adj : String → List String) (v n : String)
    (below : List String) (hchain : RevChain adj (v :: below))
    (hmem : n ∈ v :: below) (hedge : n ∈ adj v) : ReachPlus adj n n := by
  obtain ⟨q, r, hqr⟩ := List.append_of_mem hmem
  rcases q with _ | ⟨q0, qrest⟩
  · -- n is the head itself: self loop
    have hv : v = n := by simpa using congrArg List.head? hqr
    subst hv
    exact ⟨[], by simpa [EdgeChain] using hedge⟩
  · -- n is deeper on the path: reverse the prefix up to n and close with the edge
    have hq0 : q0 = v := by simpa using (congrArg List.head? hqr).symm
    subst hq0
    have hpre : RevChain adj ((q0 :: qrest) ++ [n]) := by
      have : (q0 :: qrest) ++ [n] ++ r = q0 :: below := by simpa using hqr.symm
      exact revChain_append_left adj ((q0 :: qrest) ++ [n]) r (by rw [this]; exact hchain)
    have hec : EdgeChain adj (((q0 :: qrest) ++ [n]).reverse) :=
      revChain_reverse_edgeChain adj _ hpre
    have hrev : ((q0 :: qrest) ++ [n]).reverse = n :: (q0 :: qrest).reverse := by
      simp
    have hlast : (n :: (q0 :: qrest).reverse).getLast? = some q0 := by
      have : (n :: (q0 :: qrest).reverse) = (((q0 :: qrest)) ++ [n]).reverse := hrev.symm
      rw [this, List.getLast?_reverse]; rfl
    have hsnoc := edgeChain_snoc adj (n :: (q0 :: qrest).reverse) q0 n
      (hrev ▸ hec) hlast hedge
    refine ⟨(q0 :: qrest).reverse, ?_⟩
    simpa using hsnoc

/-- The ghost finish order of the DFS: each finished vertex is new and all its
dependencies finished strictly earlier. -/
inductive BlackOk (adj : String → List String) : List String → Prop where
  | nil : BlackOk adj []
  | snoc (bl : List String) (v : String) : BlackOk adj bl → v ∉ bl →
      (∀ n ∈ adj v, n ∈ bl) → BlackOk adj (bl ++ [v])

theorem BlackOk.closed {adj : String → List String} {bl : List String}
    (h : BlackOk adj bl) : ∀ u ∈ bl, ∀ n ∈ adj u, n ∈ bl := by
  induction h with
  | nil => intro u hu; simp at hu
  | snoc bl v hbl hv hadj ih =>
      intro u hu n hn
      rcases List.mem_append.mp hu with h | h
      · exact List.mem_append.mpr (Or.inl (ih u h n hn))
      · have : u = v := by simpa using h
        subst this
        exact List.mem_append.mpr (Or.inl (hadj n hn))

theorem edgeChain_closed_subset (adj : String → List String) (S : List String)
    (hcl : ∀ u ∈ S, ∀ n ∈ adj u, n ∈ S) :
    ∀ l : List String, EdgeChain adj l → ∀ a, l = a :: l.tail → a ∈ S →
      ∀ x ∈ l, x ∈ S := by
  intro l
  induction l with
  | nil => intro _ a ha _; simp at ha
  | cons b rest ih =>
      intro hch a hcons haS x hx
      have hab : b = a := by simpa using congrArg List.head? hcons
      subst hab
      rcases List.mem_cons.mp hx with h | h
      · exact h ▸ haS
      · rcases rest with _ | ⟨c, rest'⟩
        · simp at h
        · have h' : c ∈ adj b ∧ EdgeChain adj (c :: rest') := by simpa [EdgeChain] using hch
          exact ih h'.2 c rfl (hcl b haS c h'.1) x h

theorem BlackOk.not_reach_self {adj : String → List String} {bl : List String}
    (h : BlackOk adj bl) : ∀ u ∈ bl, ¬ ReachPlus adj u u := by
  induction h with
  | nil => intro u hu; simp at hu
  | snoc bl v hbl hv hadj ih =>
      intro u hu hreach
      rcases List.mem_append.mp hu with hmem | hmem
      · exact ih u hmem hreach
      · have huv : u = v := by simpa using hmem
        subst huv
        obtain ⟨p, hp⟩ := hreach
        rcases p with _ | ⟨q, p'⟩
        · -- self loop: u ∈ adj u, so u ∈ bl, contradicting freshness
          have : u ∈ adj u := by simpa [EdgeChain] using hp
          exact hv (hadj u this)
        · have h1 : q ∈ adj u ∧ EdgeChain adj (q :: (p' ++ [u])) := by
            simpa [EdgeChain] using hp
          have hqbl : q ∈ bl := hadj q h1.1
          have hall := edgeChain_closed_subset adj bl hbl.closed
            (q :: (p' ++ [u])) h1.2 q rfl hqbl
          have : u ∈ q :: (p' ++ [u]) := by simp
          exact hv (hall u this)

theorem revChain_tail (adj : String → List String) :
    ∀ (a : String) (l : List String), RevChain adj (a :: l) → RevChain adj l
  | _, [], _ => trivial
  | _, [_], _ => trivial
  | a, b :: c :: r, h => by
      have h' : a ∈ adj b ∧ RevChain adj (b :: c :: r) := by simpa [RevChain] using h
      exact h'.2

theorem unvisCount_pos (ids vis : List String) (v : String) (hv : v ∈ ids)
    (hnv : v ∉ vis) : 0 < unvisCount ids vis := by
  induction ids with
  | nil => simp at hv
  | cons a rest ih =>
      rcases List.mem_cons.mp hv with h | h
      · subst h; simp only [unvisCount, if_neg hnv]; omega
      · have := ih h
        by_cases ha : a ∈ vis
        · simpa [unvisCount, ha] using this
        · simp only [unvisCount, if_neg ha]; omega

theorem unvisCount_nil (ids : List String) : unvisCount ids [] = ids.length := by
  induction ids with
  | nil => rfl
  | cons a rest ih => simp [unvisCount, ih]; omega

/-- Invariant carried through the cycle-detection DFS of `_validate_plan`. -/
structure DfsInv (adj : String → List String) (ids : List String)
    (path : List String) (st : DfsSt) : Prop where
  visSub : ∀ u ∈ st.visited, u ∈ ids
  pathVis : ∀ u ∈ path, u ∈ st.visited
  blackVis : ∀ u ∈ st.black, u ∈ st.visited
  visSplit : ∀ u ∈ st.visited, u ∈ path ∨ u ∈ st.black
  pathBlack : ∀ u ∈ path, u ∉ st.black
  blackOk : BlackOk adj st.black
  pathChain : RevChain adj path
  pathNodup : path.Nodup

/-- Correctness contract of `dfsVisit` at a given fuel level. -/
def VisitSpec (adj : String → List String) (ids : List String) (fuel : Nat) : Prop :=
  ∀ v below st b st',
    (∀ u ∈ ids, ∀ n ∈ adj u, n ∈ ids) →
    v ∈ ids → v ∉ st.visited →
    DfsInv adj ids below st →
    RevChain adj (v :: below) →
    unvisCount ids st.visited ≤ fuel →
    dfsVisit adj fuel v below st = (b, st') →
    (b = true → HasCycle adj ids) ∧
    (b = false →
      DfsInv adj ids below st' ∧
      (∀ u ∈ st.visited, u ∈ st'.visited) ∧
      v ∈ st'.visited ∧
      (∃ ext, st'.black = st.black ++ ext) ∧
      v ∈ st'.black)

/-- Correctness contract of `dfsNeighbors` at a given fuel level. -/
def NbrSpec (adj : String → List String) (ids : List String) (fuel : Nat) : Prop :=
  ∀ ns done v below st b st',
    (∀ u ∈ ids, ∀ n ∈ adj u, n ∈ ids) →
    adj v = done ++ ns →
    (∀ n ∈ done, n ∈ st.black) →
    v ∈ ids →
    DfsInv adj ids (v :: below) st →
    unvisCount ids st.visited ≤ fuel →
    dfsNeighborsAux adj (dfsVisit adj fuel) ns v (v :: below) st = (b, st') →
    (b = true → HasCycle adj ids) ∧
    (b = false →
      DfsInv adj ids below st' ∧
      (∀ u ∈ st.visited, u ∈ st'.visited) ∧
      (∃ ext, st'.black = st.black ++ ext) ∧
      v ∈ st'.black)

theorem visitSpec_zero (adj : String → List String) (ids : List String) :
    VisitSpec adj ids 0 := by
  intro v below st b st' hclo hvids hnv _ _ hfuel _
  exact absurd hfuel (by
    have := unvisCount_pos ids st.visited v hvids hnv
    omega)

theorem visitSpec_succ (adj : String → List String) (ids : List String) (g : Nat)
    (hnbr : NbrSpec adj ids g) : VisitSpec adj ids (g + 1) := by
  intro v below st b st' hclo hvids hnv hinv hrv hfuel heq
  have heq' : dfsNeighborsAux adj (dfsVisit adj g) (adj v) v (v :: below)
      ⟨v :: st.visited, st.black⟩ = (b, st') := by
    rw [dfsVisit] at heq; exact heq
  have hvnb : v ∉ below := fun hc => hnv (hinv.pathVis v hc)
  have hvnblack : v ∉ st.black := fun hc => hnv (hinv.blackVis v hc)
  have hinv1 : DfsInv adj ids (v :: below) ⟨v :: st.visited, st.black⟩ := by
    refine ⟨?_, ?_, ?_, ?_, ?_, hinv.blackOk, hrv, ?_⟩
    · intro u hu
      rcases List.mem_cons.mp hu with h | h
      · exact h ▸ hvids
      · exact hinv.visSub u h
    · intro u hu
      rcases List.mem_cons.mp hu with h | h
      · exact h ▸ List.mem_cons_self _ _
      · exact List.mem_cons_of_mem _ (hinv.pathVis u h)
    · intro u hu
      exact List.mem_cons_of_mem _ (hinv.blackVis u hu)
    · intro u hu
      rcases List.mem_cons.mp hu with h | h
      · exact Or.inl (h ▸ List.mem_cons_self _ _)
      · rcases hinv.visSplit u h with h' | h'
        · exact Or.inl (List.mem_cons_of_mem _ h')
        · exact Or.inr h'
    · intro u hu
      rcases List.mem_cons.mp hu with h | h
      · exact h ▸ hvnblack
      · exact hinv.pathBlack u h
    · exact List.nodup_cons.mpr ⟨hvnb, hinv.pathNodup⟩
  have hcount : unvisCount ids (v :: st.visited) ≤ g := by
    have := unvisCount_lt ids st.visited v hvids hnv
    omega
  have hres := hnbr (adj v) [] v below ⟨v :: st.visited, st.black⟩ b st' hclo
    (by simp) (by simp) hvids hinv1 hcount heq'
  refine ⟨hres.1, fun hb => ?_⟩
  obtain ⟨hinv', hmono, hext, hvb⟩ := hres.2 hb
  exact ⟨hinv', fun u hu => hmono u (List.mem_cons_of_mem _ hu),
    hmono v (List.mem_cons_self _ _), hext, hvb⟩

theorem nbrSpec_of_visitSpec (adj : String → List String) (ids : List String)
    (fuel : Nat) (hvs : VisitSpec adj ids fuel) : NbrSpec adj ids fuel := by
  intro ns
  induction ns with
  | nil =>
      intro done v below st b st' hclo hadj hdone hvids hinv hfuel heq
      rw [dfsNeighborsAux] at heq
      have hb : b = false := by
        have := congrArg Prod.fst heq
        simpa using this.symm
      have hst' : st' = ⟨st.visited, st.black ++ [v]⟩ := by
        have := congrArg Prod.snd heq
        simpa using this.symm
      subst hb
      subst hst'
      have hvvis : v ∈ st.visited := hinv.pathVis v (List.mem_cons_self _ _)
      have hvnblack : v ∉ st.black := hinv.pathBlack v (List.mem_cons_self _ _)
      have hvnb : v ∉ below := (List.nodup_cons.mp hinv.pathNodup).1
      have hblackOk : BlackOk adj (st.black ++ [v]) := by
        refine BlackOk.snoc st.black v hinv.blackOk hvnblack ?_
        intro m hm
        apply hdone
        rw [← List.append_nil done, ← hadj]
        exact hm
      refine ⟨by simp, fun _ => ?_⟩
      refine ⟨⟨hinv.visSub, ?_, ?_, ?_, ?_, hblackOk, revChain_tail adj v below hinv.pathChain,
        (List.nodup_cons.mp hinv.pathNodup).2⟩, fun u hu => hu, ⟨[v], rfl⟩, by simp⟩
      · intro u hu
        exact hinv.pathVis u (List.mem_cons_of_mem _ hu)
      · intro u hu
        rcases List.mem_append.mp hu with h | h
        · exact hinv.blackVis u h
        · have : u = v := by simpa using h
          exact this ▸ hvvis
      · intro u hu
        rcases hinv.visSplit u hu with h | h
        · rcases List.mem_cons.mp h with h' | h'
          · exact Or.inr (by simp [h'])
          · exact Or.inl h'
        · exact Or.inr (List.mem_append.mpr (Or.inl h))
      · intro u hu hc
        rcases List.mem_append.mp hc with h | h
        · exact hinv.pathBlack u (List.mem_cons_of_mem _ hu) h
        · have : u = v := by simpa using h
          exact hvnb (this ▸ hu)
  | cons n ns' ih =>
      intro done v below st b st' hclo hadj hdone hvids hinv hfuel heq
      have hnadj : n ∈ adj v := by rw [hadj]; simp
      by_cases hnvis : n ∈ st.visited
      · by_cases hnpath : n ∈ v :: below
        · -- back edge: a cycle through n
          rw [dfsNeighborsAux] at heq
          simp only [if_pos hnvis, if_pos hnpath] at heq
          have hb : b = true := by
            have := congrArg Prod.fst heq
            simpa using this.symm
          subst hb
          refine ⟨fun _ => ?_, by simp⟩
          exact ⟨n, hinv.visSub n hnvis,
            cycle_of_backedge adj v n below hinv.pathChain hnpath hnadj⟩
        · -- already finished neighbor: skip it
          rw [dfsNeighborsAux] at heq
          simp only [if_pos hnvis, if_neg hnpath] at heq
          have hnblack : n ∈ st.black := by
            rcases hinv.visSplit n hnvis with h | h
            · exact absurd h hnpath
            · exact h
          refine ih (done ++ [n]) v below st b st' hclo (by rw [hadj]; simp) ?_
            hvids hinv hfuel heq
          intro m hm
          rcases List.mem_append.mp hm with h | h
          · exact hdone m h
          · have : m = n := by simpa using h
            exact this ▸ hnblack
      · -- unvisited neighbor: recurse into dfsVisit
        rw [dfsNeighborsAux] at heq
        simp only [if_neg hnvis] at heq
        have hnids : n ∈ ids := hclo v hvids n hnadj
        rcases hres : dfsVisit adj fuel n (v :: below) st with ⟨bb, stt⟩
        have hspec := hvs n (v :: below) st bb stt hclo hnids hnvis hinv
          (by
            have : RevChain adj (n :: v :: below) := by
              rcases below with _ | ⟨c, r⟩
              · simpa [RevChain] using hnadj
              · have := hinv.pathChain
                simpa [RevChain] using ⟨hnadj, this⟩
            exact this)
          hfuel hres
        rw [hres] at heq
        rcases bb with _ | _
        · -- dfsVisit returned false: continue the loop from stt
          simp only at heq
          obtain ⟨hinv', hmono, hnvis', hext, hnblack'⟩ := hspec.2 rfl
          obtain ⟨ext, hextEq⟩ := hext
          have hcount' : unvisCount ids stt.visited ≤ fuel :=
            le_trans (unvisCount_mono ids st.visited stt.visited hmono) hfuel
          have hres2 := ih (done ++ [n]) v below stt b st' hclo (by rw [hadj]; simp)
            (by
              intro m hm
              rcases List.mem_append.mp hm with h | h
              · rw [hextEq]; exact List.mem_append.mpr (Or.inl (hdone m h))
              · have : m = n := by simpa using h
                exact this ▸ hnblack')
            hvids hinv' hcount' heq
          refine ⟨hres2.1, fun hb => ?_⟩
          obtain ⟨hinv2, hmono2, hext2, hvb2⟩ := hres2.2 hb
          obtain ⟨ext2, hext2Eq⟩ := hext2
          exact ⟨hinv2, fun u hu => hmono2 u (hmono u hu),
            ⟨ext ++ ext2, by rw [hext2Eq, hextEq, List.append_assoc]⟩, hvb2⟩
        · -- dfsVisit found a cycle: propagate
          simp only at heq
          have hb : b = true := by
            have := congrArg Prod.fst heq
            simpa using this.symm
          subst hb
          exact ⟨fun _ => hspec.1 rfl, by simp⟩

theorem nbrSpec_all (adj : String → List String) (ids : List String) :
    ∀ fuel, NbrSpec adj ids fuel := by
  intro fuel
  induction fuel with
  | zero => exact nbrSpec_of_visitSpec adj ids 0 (visitSpec_zero adj ids)
  | succ g ihg => exact nbrSpec_of_visitSpec adj ids (g + 1) (visitSpec_succ adj ids g ihg)

theorem visitSpec_all (adj : String → List String) (ids : List String) :
    ∀ fuel, VisitSpec adj ids fuel := by
  intro fuel
  rcases fuel with _ | g
  · exact visitSpec_zero adj ids
  · exact visitSpec_succ adj ids g (nbrSpec_all adj ids g)

theorem dfsTop_spec (adj : String → List String) (ids : List String) (fuel : Nat)
    (hclo : ∀ u ∈ ids, ∀ n ∈ adj u, n ∈ ids) :
    ∀ order st b st',
      (∀ t ∈ order, t ∈ ids) →
      DfsInv adj ids [] st →
      unvisCount ids st.visited ≤ fuel →
      dfsTop adj fuel order st = (b, st') →
      (b = true → HasCycle adj ids) ∧
      (b = false →
        DfsInv adj ids [] st' ∧
        (∀ u ∈ st.visited, u ∈ st'.visited) ∧
        (∀ t ∈ order, t ∈ st'.visited)) := by
  intro order
  induction order with
  | nil =>
      intro st b st' _ hinv _ heq
      rw [dfsTop] at heq
      have hb : b = false := by
        have := congrArg Prod.fst heq; simpa using this.symm
      have hst : st' = st := by
        have := congrArg Prod.snd heq; simpa using this.symm
      subst hb; subst hst
      exact ⟨by simp, fun _ => ⟨hinv, fun u hu => hu, by simp⟩⟩
  | cons tid rest ih =>
      intro st b st' horder hinv hfuel heq
      have htid : tid ∈ ids := horder tid (List.mem_cons_self _ _)
      have hrest : ∀ t ∈ rest, t ∈ ids := fun t ht => horder t (List.mem_cons_of_mem _ ht)
      by_cases hvis : tid ∈ st.visited
      · rw [dfsTop] at heq
        simp only [if_pos hvis] at heq
        have hres := ih st b st' hrest hinv hfuel heq
        refine ⟨hres.1, fun hb => ?_⟩
        obtain ⟨hinv', hmono, hall⟩ := hres.2 hb
        refine ⟨hinv', hmono, fun t ht => ?_⟩
        rcases List.mem_cons.mp ht with h | h
        · exact h ▸ hmono tid hvis
        · exact hall t h
      · rw [dfsTop] at heq
        simp only [if_neg hvis] at heq
        rcases hres : dfsVisit adj fuel tid [] st with ⟨bb, stt⟩
        have hspec := visitSpec_all adj ids fuel tid [] st bb stt hclo htid hvis hinv
          trivial hfuel hres
        rw [hres] at heq
        rcases bb with _ | _
        · simp only at heq
          obtain ⟨hinv', hmono, htidvis, _, _⟩ := hspec.2 rfl
          have hcount' : unvisCount ids stt.visited ≤ fuel :=
            le_trans (unvisCount_mono ids st.visited stt.visited hmono) hfuel
          have hres2 := ih stt b st' hrest hinv' hcount' heq
          refine ⟨hres2.1, fun hb => ?_⟩
          obtain ⟨hinv2, hmono2, hall2⟩ := hres2.2 hb
          refine ⟨hinv2, fun u hu => hmono2 u (hmono u hu), fun t ht => ?_⟩
          rcases List.mem_cons.mp ht with h | h
          · exact h ▸ hmono2 tid htidvis
          · exact hall2 t h
        · simp only at heq
          have hb : b = true := by
            have := congrArg Prod.fst heq; simpa using this.symm
          subst hb
          exact ⟨fun _ => hspec.1 rfl, by simp⟩

/-- The DFS driver loop of `_validate_plan` reports a cycle exactly when the
dependency graph restricted to the declared ids has one — for every enumeration
order of the id set and any fuel of at least one unit per distinct id; and on
acceptance every id has been visited. -/
theorem dfsTop_verdict (adj : String → List String) (ids order : List String)
    (fuel : Nat)
    (hclo : ∀ u ∈ ids, ∀ n ∈ adj u, n ∈ ids)
    (horder : ∀ t ∈ order, t ∈ ids)
    (hcover : ∀ t ∈ ids, t ∈ order)
    (hfuel : ids.length ≤ fuel) :
    ((dfsTop adj fuel order ⟨[], []⟩).1 = true ↔ HasCycle adj ids) ∧
    ((dfsTop adj fuel order ⟨[], []⟩).1 = false →
      ∀ t ∈ ids, t ∈ (dfsTop adj fuel order ⟨[], []⟩).2.visited) := by
  have hinv0 : DfsInv adj ids [] ⟨[], []⟩ :=
    ⟨by simp, by simp, by simp, by simp, by simp, BlackOk.nil, trivial, List.nodup_nil⟩
  have hcount0 : unvisCount ids ([] : List String) ≤ fuel := by
    rw [unvisCount_nil]; exact hfuel
  rcases heq : dfsTop adj fuel order ⟨[], []⟩ with ⟨b, st'⟩
  have hspec := dfsTop_spec adj ids fuel hclo order ⟨[], []⟩ b st' horder hinv0 hcount0 heq
  constructor
  · constructor
    · intro hb; exact hspec.1 hb
    · intro hcyc
      by_contra hb
      have hbf : b = false := by
        rcases b with _ | _
        · rfl
        · exact absurd rfl hb
      obtain ⟨hinv', _, hall⟩ := hspec.2 hbf
      -- all ids are visited, hence (empty path) all finished: in black
      have hblack : ∀ t ∈ ids, t ∈ st'.black := by
        intro t ht
        have hvis : t ∈ st'.visited := hall t (hcover t ht)
        rcases hinv'.visSplit t hvis with h | h
        · simp at h
        · exact h
      obtain ⟨v, hvids, hreach⟩ := hcyc
      exact hinv'.blackOk.not_reach_self v (hblack v hvids) hreach
  · intro hb t ht
    obtain ⟨_, _, hall⟩ := hspec.2 hb
    exact hall t (hcover t ht)

theorem keys_nodup_unique (l : List (String × List String))
    (h : (l.map Prod.fst).Nodup) :
    ∀ e ∈ l, ∀ x ∈ l, x.1 = e.1 → x = e := by
  induction l with
  | nil => intro e he; simp at he
  | cons f rest ih =>
      intro e he x hx hkey
      have h' : (f.1 ∉ rest.map Prod.fst) ∧ (rest.map Prod.fst).Nodup := by
        simpa [List.nodup_cons] using h
      rcases List.mem_cons.mp he with he' | he' <;> rcases List.mem_cons.mp hx with hx' | hx'
      · rw [he', hx']
      · exfalso
        have hx1 : x.1 ∈ rest.map Prod.fst := List.mem_map_of_mem Prod.fst hx'
        rw [hkey, he'] at hx1
        exact h'.1 hx1
      · exfalso
        have he1 : e.1 ∈ rest.map Prod.fst := List.mem_map_of_mem Prod.fst he'
        rw [← hkey, hx'] at he1
        exact h'.1 he1
      · exact ih h'.2 e he' x hx' hkey

theorem adjLookup_eq_of_nodup (entries : List (String × List String))
    (h : (entries.map Prod.fst).Nodup) (e : String × List String) (he : e ∈ entries) :
    adjLookup entries e.1 = e.2 := by
  rcases hfind : entries.reverse.find? (fun x => decide (x.1 = e.1)) with _ | x
  · exfalso
    have := List.find?_eq_none.mp hfind e (List.mem_reverse.mpr he)
    simp at this
  · have hx : x ∈ entries := List.mem_reverse.mp (List.mem_of_find?_eq_some hfind)
    have hpred : x.1 = e.1 := by simpa using List.find?_some hfind
    have hxe : x = e := keys_nodup_unique entries h e he x hx hpred
    rw [adjLookup, hfind, hxe]

theorem adjLookup_subset (entries : List (String × List String)) (S : List String)
    (h : ∀ e ∈ entries, ∀ d ∈ e.2, d ∈ S) :
    ∀ u, ∀ n ∈ adjLookup entries u, n ∈ S := by
  intro u n hn
  rw [adjLookup] at hn
  rcases hfind : entries.reverse.find? (fun x => decide (x.1 = u)) with _ | x
  · rw [hfind] at hn; simp at hn
  · rw [hfind] at hn
    exact h x (List.mem_reverse.mp (List.mem_of_find?_eq_some hfind)) n hn

theorem depCheckFind_none_of_all (entries : List (String × List String))
    (ids : List String) (h : ∀ e ∈ entries, ∀ d ∈ e.2, d ∈ ids) :
    depCheckFind entries ids = none := by
  unfold depCheckFind
  generalize firstDedup (entries.map Prod.fst) = l
  induction l with
  | nil => rfl
  | cons tid rest ih =>
      rw [depCheckFind.go]
      have hfind : (adjLookup entries tid).find? (fun dep => decide (¬ dep ∈ ids)) = none := by
        apply List.find?_eq_none.mpr
        intro d hd
        simpa using adjLookup_subset entries ids h tid d hd
      rw [hfind]
      exact ih

theorem depCheckFind_go_none (entries : List (String × List String))
    (ids : List String) :
    ∀ l, depCheckFind.go entries ids l = none →
      ∀ tid ∈ l, (adjLookup entries tid).find? (fun dep => decide (¬ dep ∈ ids)) = none := by
  intro l
  induction l with
  | nil => intro _ tid htid; simp at htid
  | cons tid0 rest ih =>
      intro h t ht
      rw [depCheckFind.go] at h
      rcases hfind : (adjLookup entries tid0).find? (fun dep => decide (¬ dep ∈ ids))
        with _ | dep
      · rw [hfind] at h
        rcases List.mem_cons.mp ht with h' | h'
        · exact h' ▸ hfind
        · exact ih h t h'
      · rw [hfind] at h; simp at h

theorem depCheckFind_some_missing (entries : List (String × List String))
    (ids : List String) (t d : String)
    (h : depCheckFind entries ids = some (t, d)) : d ∉ ids := by
  unfold depCheckFind at h
  generalize firstDedup (entries.map Prod.fst) = l at h
  induction l with
  | nil => simp [depCheckFind.go] at h
  | cons tid rest ih =>
      rw [depCheckFind.go] at h
      rcases hfind : (adjLookup entries tid).find? (fun dep => decide (¬ dep ∈ ids))
        with _ | dep
      · rw [hfind] at h
        exact ih h
      · rw [hfind] at h
        have hpred := List.find?_some hfind
        have hd : dep = d := by
          have := congrArg (fun o => Option.map Prod.snd o) h
          simpa using this
        subst hd
        simpa using hpred

theorem depCheckFind_exists_of_missing (entries : List (String × List String))
    (hnodup : (entries.map Prod.fst).Nodup)
    (e : String × List String) (he : e ∈ entries) (d : String) (hd : d ∈ e.2)
    (hdnot : d ∉ entries.map Prod.fst) :
    ∃ t d', depCheckFind entries (entries.map Prod.fst) = some (t, d') ∧
      d' ∉ entries.map Prod.fst := by
  rcases hres : depCheckFind entries (entries.map Prod.fst) with _ | td
  · exfalso
    have hgo : depCheckFind.go entries (entries.map Prod.fst)
        (firstDedup (entries.map Prod.fst)) = none := by
      rw [← hres]; rfl
    have hE1 : e.1 ∈ firstDedup (entries.map Prod.fst) :=
      (firstDedup_mem _ _).mpr (List.mem_map_of_mem Prod.fst he)
    have hall := depCheckFind_go_none entries (entries.map Prod.fst) _ hgo e.1 hE1
    have := List.find?_eq_none.mp hall d
      (by rw [adjLookup_eq_of_nodup entries hnodup e he]; exact hd)
    simp [hdnot] at this
  · obtain ⟨t, d'⟩ := td
    exact ⟨t, d', rfl, depCheckFind_some_missing entries _ t d' hres⟩


theorem HasCycle_congr (adj : String → List String) (a b : List String)
    (h : ∀ x, x ∈ a ↔ x ∈ b) : HasCycle adj a ↔ HasCycle adj b := by
  unfold HasCycle
  constructor
  · rintro ⟨v, hv, hr⟩; exact ⟨v, (h v).mp hv, hr⟩
  · rintro ⟨v, hv, hr⟩; exact ⟨v, (h v).mpr hv, hr⟩

/-- Acceptance by `_validate_plan` requires a non-empty list under the `tasks` key
(and only that key; `steps` is not recognized). -/
theorem validate_plan_ok_schema (plan : JVal) (h : validate_plan plan = .ok ()) :
    ∃ fs tasks, plan = .obj fs ∧ getKey fs "tasks" = some (.arr tasks) ∧ tasks ≠ [] := by
  rcases plan with _ | s | n | b | xs | fs
  · simp [validate_plan] at h
  · simp [validate_plan] at h
  · simp [validate_plan] at h
  · simp [validate_plan] at h
  · simp [validate_plan] at h
  · rcases hk : getKey fs "tasks" with _ | v
    · simp [validate_plan, hk] at h
    · rcases v with _ | s | n | b | tasks | o
      · simp [validate_plan, hk] at h
      · simp [validate_plan, hk] at h
      · simp [validate_plan, hk] at h
      · simp [validate_plan, hk] at h
      · by_cases ht : tasks = []
        · simp [validate_plan, hk, ht] at h
        · exact ⟨fs, tasks, rfl, hk, ht⟩
      · simp [validate_plan, hk] at h

/-- C8 (amended): for every plan that passes the schema phase with
pairwise-distinct (string-coerced) step ids and only resolvable dependencies,
`_validate_plan`'s adjacency is exactly the declared dependency lists, it accepts
precisely the plans whose dependency graph is acyclic, rejects every plan whose
graph has a cycle with the cycle-specific "circular dependencies" reason, gives
the same verdict for every enumeration order of the id set (the check is a pure
function of the graph, hence deterministic and side-effect-free), and on
acceptance its DFS has visited every declared id. -/
theorem claim_C8 (fs : Obj) (tasks : List JVal)
    (entries : List (String × List String))
    (htasksKey : getKey fs "tasks" = some (.arr tasks))
    (htasksNe : tasks ≠ [])
    (hentries : planEntries tasks = .ok entries)
    (hnodup : (entries.map Prod.fst).Nodup)
    (hdeps : ∀ e ∈ entries, ∀ d ∈ e.2, d ∈ entries.map Prod.fst) :
    (∀ e ∈ entries, adjLookup entries e.1 = e.2) ∧
    (¬ HasCycle (adjLookup entries) (entries.map Prod.fst) →
       validate_plan (.obj fs) = .ok ()) ∧
    (HasCycle (adjLookup entries) (entries.map Prod.fst) →
       validate_plan (.obj fs) =
         .error ⟨"InvalidPlanError", "Plan contains circular dependencies"⟩) ∧
    (∀ order, (∀ t, t ∈ order ↔ t ∈ entries.map Prod.fst) →
       ((dfsTop (adjLookup entries) (firstDedup (entries.map Prod.fst)).length order
          ⟨[], []⟩).1 = true ↔ HasCycle (adjLookup entries) (entries.map Prod.fst))) ∧
    (validate_plan (.obj fs) = .ok () →
       ∀ t ∈ entries.map Prod.fst,
         t ∈ (dfsTop (adjLookup entries) (firstDedup (entries.map Prod.fst)).length
            (firstDedup (entries.map Prod.fst)) ⟨[], []⟩).2.visited) := by
  have hadjdecl : ∀ e ∈ entries, adjLookup entries e.1 = e.2 :=
    fun e he => adjLookup_eq_of_nodup entries hnodup e he
  have hmemIds : ∀ t : String,
      t ∈ firstDedup (entries.map Prod.fst) ↔ t ∈ entries.map Prod.fst :=
    fun t => firstDedup_mem _ t
  have hclo : ∀ u ∈ firstDedup (entries.map Prod.fst),
      ∀ n ∈ adjLookup entries u, n ∈ firstDedup (entries.map Prod.fst) := by
    intro u _ n hn
    exact (hmemIds n).mpr (adjLookup_subset entries _ hdeps u n hn)
  have hcongr := HasCycle_congr (adjLookup entries)
    (firstDedup (entries.map Prod.fst)) (entries.map Prod.fst) hmemIds
  have hverd : ∀ order, (∀ t, t ∈ order ↔ t ∈ entries.map Prod.fst) →
      (((dfsTop (adjLookup entries) (firstDedup (entries.map Prod.fst)).length order
        ⟨[], []⟩).1 = true ↔ HasCycle (adjLookup entries) (entries.map Prod.fst)) ∧
       ((dfsTop (adjLookup entries) (firstDedup (entries.map Prod.fst)).length order
        ⟨[], []⟩).1 = false →
        ∀ t ∈ firstDedup (entries.map Prod.fst),
          t ∈ (dfsTop (adjLookup entries) (firstDedup (entries.map Prod.fst)).length order
            ⟨[], []⟩).2.visited)) := by
    intro order horder
    have h := dfsTop_verdict (adjLookup entries) (firstDedup (entries.map Prod.fst))
      order (firstDedup (entries.map Prod.fst)).length hclo
      (fun t ht => (hmemIds t).mpr ((horder t).mp ht))
      (fun t ht => (horder t).mpr ((hmemIds t).mp ht))
      le_rfl
    exact ⟨h.1.trans hcongr, h.2⟩
  have hval : validate_plan (.obj fs) =
      (if (dfsTop (adjLookup entries) (firstDedup (entries.map Prod.fst)).length
          (firstDedup (entries.map Prod.fst)) ⟨[], []⟩).1 then
        (.error ⟨"InvalidPlanError", "Plan contains circular dependencies"⟩ :
          Except PyExc Unit)
      else .ok ()) := by
    simp only [validate_plan, htasksKey, if_neg htasksNe, hentries,
      depCheckFind_none_of_all entries (entries.map Prod.fst) hdeps]
  have hselfOrder : ∀ t : String,
      t ∈ firstDedup (entries.map Prod.fst) ↔ t ∈ entries.map Prod.fst := hmemIds
  refine ⟨hadjdecl, ?_, ?_, fun order horder => (hverd order horder).1, ?_⟩
  · intro hnc
    rw [hval]
    have := (hverd _ hselfOrder).1
    rcases hb : (dfsTop (adjLookup entries) (firstDedup (entries.map Prod.fst)).length
        (firstDedup (entries.map Prod.fst)) ⟨[], []⟩).1 with _ | _
    · simp
    · exact absurd (this.mp hb) hnc
  · intro hc
    rw [hval]
    have := (hverd _ hselfOrder).1
    rcases hb : (dfsTop (adjLookup entries) (firstDedup (entries.map Prod.fst)).length
        (firstDedup (entries.map Prod.fst)) ⟨[], []⟩).1 with _ | _
    · exfalso
      have hne : (dfsTop (adjLookup entries) (firstDedup (entries.map Prod.fst)).length
          (firstDedup (entries.map Prod.fst)) ⟨[], []⟩).1 = true := this.mpr hc
      rw [hb] at hne
      exact Bool.false_ne_true hne
    · simp
  · intro hok t ht
    rw [hval] at hok
    rcases hb : (dfsTop (adjLookup entries) (firstDedup (entries.map Prod.fst)).length
        (firstDedup (entries.map Prod.fst)) ⟨[], []⟩).1 with _ | _
    · exact (hverd _ hselfOrder).2 hb t ((hmemIds t).mpr ht)
    · rw [hb] at hok
      simp at hok

/-- The reference check of `_validate_plan`: a (non-shadowed) dependency on an
undeclared id makes validation fail with the "depends on non-existent task"
message naming a genuinely missing id. -/
theorem validate_plan_missing_dep (fs : Obj) (tasks : List JVal)
    (entries : List (String × List String))
    (htasksKey : getKey fs "tasks" = some (.arr tasks))
    (htasksNe : tasks ≠ [])
    (hentries : planEntries tasks = .ok entries)
    (hnodup : (entries.map Prod.fst).Nodup)
    (e : String × List String) (he : e ∈ entries) (d : String) (hd : d ∈ e.2)
    (hdnot : d ∉ entries.map Prod.fst) :
    ∃ t d', validate_plan (.obj fs) =
        .error ⟨"InvalidPlanError",
          "Task " ++ t ++ " depends on non-existent task " ++ d'⟩ ∧
      d' ∉ entries.map Prod.fst := by
  obtain ⟨t, d', hfind, hdn⟩ :=
    depCheckFind_exists_of_missing entries hnodup e he d hd hdnot
  refine ⟨t, d', ?_, hdn⟩
  simp only [validate_plan, htasksKey, if_neg htasksNe, hentries, hfind]

/-!
## Executor — `ExecutorAgent.execute_step` in `backend/agents/executor/executor.py`

The external generator and the registered tools are environment parameters:
`gen` is the parsed selection dict produced by `_parse_response` after
`llm.generate` (an `.error` models a generator exception; a parse failure never
raises — `_parse_response` falls back to the `tool: none` dict), and `toolCall`
is the outcome of the selected tool's schema-validated execution.
-/

/-- The fields of a value expected to be a dict (callers only use this on values
the source guarantees to be dicts). -/
def objOf : JVal → Obj
  | .obj fs => fs
  | _ => []

/-- Environment of one `ExecutorAgent.execute_step` call. -/
structure ExecEnv where
  gen : Except PyExc JVal
  toolCall : Except PyExc JVal

/-- `ToolRegistry.call_tool`: NotFound for unregistered names; parameter
validation and tool execution outcomes come from the environment.  Unpacking
`**params` with a non-dict raises TypeError at the call site. -/
def call_tool (reg : List String) (name : JVal) (params : JVal)
    (toolRes : Except PyExc JVal) : Except PyExc JVal :=
  match params with
  | .obj _ =>
      match name with
      | .str s =>
          if s ∈ reg then toolRes
          else .error ⟨"ToolNotFoundError", "Tool '" ++ s ++ "' not found"⟩
      | v => .error ⟨"ToolNotFoundError", "Tool '" ++ pyStr v ++ "' not found"⟩
  | _ => .error ⟨"TypeError", "argument after ** must be a mapping"⟩

/-- `ExecutorAgent.execute_step`. -/
def executor_execute_step (reg : List String) (env : ExecEnv) : Except PyExc JVal :=
  match env.gen with
  | .error e => .error e
  | .ok sel =>
      match sel with
      | .obj selo =>
          let toolName := getKey selo "tool"
          let params := (getKey selo "params").getD (.obj [])
          if toolName = some (.str "none") ∨ ¬ truthyOpt toolName then
            .ok (.obj [("status", .str "FAILED"),
              ("error", .str ("No suitable tool found: "
                ++ pyStr ((getKey selo "rationale").getD (.str "Unknown reason")))),
              ("tool", .str "none")])
          else
            let tn := toolName.getD .null
            match call_tool reg tn params env.toolCall with
            | .ok result => .ok (.obj [("status", .str "SUCCESS"), ("result", result),
                ("tool", tn), ("params", params)])
            | .error e => .ok (.obj [("status", .str "FAILED"), ("error", .str e.msg),
                ("tool", tn), ("params", params)])
      | _ => .error ⟨"AttributeError", "selection has no attribute get"⟩

/-!
## Workflow nodes and engine — `SimpleToolNode` (backend/core/controller.py) and
`WorkflowEngine` (backend/controller/engine/engine.py)

`run_task`/`resume_task` always pass an executor to the nodes, so the modelled
`SimpleToolNode.execute` is its executor branch.  Wall-clock values are opaque:
`t0`/`t1` stand for the `started_at`/`completed_at` timestamps and durations are
rendered as 0.
-/

/-- A `SimpleToolNode` as registered with the engine. -/
structure WNode where
  id : String
  deps : List String
  descr : JVal
  toolName : JVal
  toolParams : JVal
deriving Repr, DecidableEq

/-- `SimpleToolNode.execute` (executor branch): run the executor, translate its
dict into the node-result dict; any exception becomes a FAILED dict carrying
`tool`/`params` keys (the non-exception FAILED dict carries
`tool_name`/`tool_params` instead). -/
def nodeExecute (reg : List String) (toolName toolParams : JVal) (env : ExecEnv)
    (t0 t1 : String) : JVal :=
  match executor_execute_step reg env with
  | .ok res =>
      let ro := objOf res
      let tool_name := pyOr (getKey ro "tool") toolName
      let tool_params := pyOr (getKey ro "params") toolParams
      let status := (getKey ro "status").getD (.str "SUCCESS")
      if status = .str "FAILED" then
        .obj [("tool_name", tool_name), ("tool_params", tool_params),
          ("status", .str "FAILED"),
          ("error", pyOr (getKey ro "error") (.str "tool execution failed")),
          ("started_at", .str t0), ("completed_at", .str t1),
          ("duration_ms_wall", .num 0)]
      else
        .obj [("result", res), ("tool_name", tool_name), ("tool_params", tool_params),
          ("status", .str "SUCCESS"), ("started_at", .str t0), ("completed_at", .str t1),
          ("duration_ms_wall", .num 0)]
  | .error exc =>
      .obj [("status", .str "FAILED"), ("error", .str exc.msg), ("tool", toolName),
        ("params", toolParams), ("started_at", .str t0), ("completed_at", .str t1),
        ("duration_ms_wall", .num 0)]

/-- Observable events of a controller run, in order. -/
inductive REvent where
  | execNode (idx : Nat)
  | persistCurrent (idx : Nat)
  | archived (reason : String)
  | topCatch
deriving Repr, DecidableEq

/-- Find a node and its registration position by id. -/
def findNodeIdx (nodes : List WNode) (nid : String) : Option (Nat × WNode) :=
  go 0 nodes where
  go (i : Nat) : List WNode → Option (Nat × WNode)
    | [] => none
    | n :: rest => if n.id = nid then some (i, n) else go (i + 1) rest

/-- `WorkflowEngine._execute_single_node`: run the node, record its result. -/
def execNodeById (reg : List String) (nodes : List WNode) (nenv : Nat → ExecEnv)
    (t0 t1 : String) (results : Obj) (evs : List REvent) (nid : String) :
    Option (Obj × List REvent) :=
  match findNodeIdx nodes nid with
  | none => none
  | some (i, n) =>
      let r := nodeExecute reg n.toolName n.toolParams (nenv i) t0 t1
      some (setKey results nid r, evs ++ [.execNode i])

/-- `WorkflowEngine._execute_linear_workflow`: follow the dependency chain from
the single start node. -/
def engineLinear (reg : List String) (nodes : List WNode) (nenv : Nat → ExecEnv)
    (t0 t1 : String) : Nat → Option String → List String → Obj → List REvent →
    Option (Obj × List REvent)
  | 0, _, _, _, _ => none
  | _ + 1, none, _, results, evs => some (results, evs)
  | fuel + 1, some c, executed, results, evs =>
      if c ∈ executed then some (results, evs)
      else
        match execNodeById reg nodes nenv t0 t1 results evs c with
        | none => none
        | some (results', evs') =>
            let nxt := nodes.find? (fun n => decide (c ∈ n.deps))
            engineLinear reg nodes nenv t0 t1 fuel (nxt.map (fun n => n.id))
              (c :: executed) results' evs'

/-- Dependencies of a pending node all executed? -/
def depsDone (nodes : List WNode) (nid : String) (executed : List String) : Bool :=
  match findNodeIdx nodes nid with
  | some (_, n) => n.deps.all (fun d => decide (d ∈ executed))
  | none => false

/-- The inner `for node_id in ready:` loop of
`_execute_linear_workflow_with_dependencies`. -/
def execReady (reg : List String) (nodes : List WNode) (nenv : Nat → ExecEnv)
    (t0 t1 : String) : List String → List String → List String → Obj →
    List REvent → Option (List String × List String × Obj × List REvent)
  | [], executed, pending, results, evs => some (executed, pending, results, evs)
  | nid :: rest, executed, pending, results, evs =>
      match execNodeById reg nodes nenv t0 t1 results evs nid with
      | none => none
      | some (results', evs') =>
          let executed' := nid :: executed
          let dependents := (nodes.filter (fun n =>
            decide (nid ∈ n.deps) && ! decide (n.id ∈ executed'))).map (fun n => n.id)
          let pending' := dependents.foldl
            (fun p d => if d ∈ p then p else p ++ [d]) pending
          execReady reg nodes nenv t0 t1 rest executed' pending' results' evs'

/-- `_execute_linear_workflow_with_dependencies`: repeatedly execute the ready
set.  If pending nodes remain but none is ready, the source loops forever; the
model returns `none` for that hang (fuel exhaustion likewise). -/
def engineReady (reg : List String) (nodes : List WNode) (nenv : Nat → ExecEnv)
    (t0 t1 : String) : Nat → List String → List String → Obj → List REvent →
    Option (Obj × List REvent)
  | 0, _, _, _, _ => none
  | fuel + 1, executed, pending, results, evs =>
      if pending = [] then some (results, evs)
      else
        let ready := pending.filter (fun nid => depsDone nodes nid executed)
        let pending' := pending.filter (fun nid => ! depsDone nodes nid executed)
        if ready = [] then none
        else
          match execReady reg nodes nenv t0 t1 ready executed pending' results evs with
          | none => none
          | some (executed', pending'', results', evs') =>
              engineReady reg nodes nenv t0 t1 fuel executed' pending'' results' evs'

/-- `WorkflowEngine.execute_workflow`: all tool executions happen here, before
the controller's bookkeeping loop ever runs. -/
def execute_workflow (reg : List String) (nodes : List WNode) (nenv : Nat → ExecEnv)
    (wid t0 t1 : String) : Option (List REvent × JVal) :=
  let startNodes := (nodes.filter (fun n => decide (n.deps = []))).map (fun n => n.id)
  match startNodes with
  | [] => some ([], .obj [("status", .str "failed"),
      ("error", .str "No starting nodes found in workflow"),
      ("workflow_id", .str wid), ("execution_time", .num 0)])
  | [s] =>
      match engineLinear reg nodes nenv t0 t1 (nodes.length + 1) (some s) [] [] [] with
      | none => none
      | some (results, evs) => some (evs, .obj [("status", .str "completed"),
          ("workflow_id", .str wid), ("execution_time", .num 0),
          ("results", .obj results)])
  | starts =>
      match engineReady reg nodes nenv t0 t1 (nodes.length + 1) [] starts [] [] with
      | none => none
      | some (results, evs) => some (evs, .obj [("status", .str "completed"),
          ("workflow_id", .str wid), ("execution_time", .num 0),
          ("results", .obj results)])

/-!
## Controller — `ECFController` in `backend/core/controller.py`

A run is a pure function of an environment describing the external generator's
answers and the tools' outcomes.  It threads a `Ctx`: the durable store plus the
ordered event log and the list of every store state ever persisted (the states a
crash could expose).  Trace-store appends have no observable effect on task state
and are not modelled.
-/

/-- Store plus observability: events and all persisted store states, in order. -/
structure Ctx where
  store : Store
  events : List REvent
  snaps : List Store
deriving Repr, DecidableEq

/-- `update_task` through the store, recording the newly persisted state. -/
def ctxUpdate (c : Ctx) (patch : Obj) : Except PyExc Ctx :=
  match update_task false c.store patch with
  | .error e => .error e
  | .ok (st', _) => .ok ⟨st', c.events, c.snaps ++ [st']⟩

/-- `update_task` that also emits an event right after persisting. -/
def ctxUpdateEv (c : Ctx) (patch : Obj) (ev : REvent) : Except PyExc Ctx :=
  match ctxUpdate c patch with
  | .error e => .error e
  | .ok c' => .ok ⟨c'.store, c'.events ++ [ev], c'.snaps⟩

/-- `archive_task` through the store. -/
def ctxArchive (c : Ctx) (reason : String) : Except PyExc Ctx :=
  match archive_task c.store reason with
  | .error e => .error e
  | .ok st' => .ok ⟨st', c.events ++ [.archived reason], c.snaps ++ [st']⟩

/-- `create_task` through the store. -/
def ctxCreate (c : Ctx) (spec : Obj) (taskId now : String) : Except PyExc Ctx :=
  match create_task spec taskId now c.store with
  | .error e => .error e
  | .ok (st', _) => .ok ⟨st', c.events, c.snaps ++ [st']⟩

/-- Environment of one controller run: the parsed plan from the Planner's
generator call, the parsed tool selections of `_select_tool_for_step` (one list
for `run_task`'s pre-resolution pass, one for
`_convert_plan_to_workflow_nodes`), and the per-node executor environments. -/
structure RunEnv where
  plan : Except PyExc JVal
  preSel : Nat → Except PyExc JVal
  convSel : Nat → Except PyExc JVal
  nodeEnvs : Nat → ExecEnv

/-- `PlannerAgent.generate_plan` with an existing task_id: parse (environment),
validate with `_validate_plan`, then persist the plan's tasks as `next_steps`. -/
def planner_generate_plan (envPlan : Except PyExc JVal) (c : Ctx) :
    Except PyExc Ctx :=
  match envPlan with
  | .error e => .error e
  | .ok plan =>
      match validate_plan plan with
      | .error e => .error e
      | .ok _ =>
          match plan with
          | .obj fs =>
              match getKey fs "tasks" with
              | some (.arr ts) =>
                  ctxUpdate c [("domain", .str "general"), ("constraints", .arr []),
                    ("next_steps", .arr ts)]
              | _ => .error ⟨"KeyError", "tasks"⟩
          | _ => .error ⟨"TypeError", "plan is not a dict"⟩

/-- `ToolRegistry.get_tool` truthiness: whether a selected tool name is a
registered tool. -/
def regHasTool (reg : List String) : JVal → Bool
  | .str s => decide (s ∈ reg)
  | _ => false

/-- The per-step tool pre-resolution loop of `run_task` (controller.py 453-469):
verify each step has a description and a registered tool, and write the selected
`tool`/`tool_params` into the step dict. -/
def preResolve (reg : List String) (preSel : Nat → Except PyExc JVal) :
    List JVal → Nat → Except PyExc (List JVal)
  | [], _ => .ok []
  | step :: rest, index =>
      let desc := match step with
        | .obj f => (getKey f "description").getD .null
        | _ => .null
      if ¬ truthy desc then
        .error ⟨"InvalidPlanError", "Plan step missing description"⟩
      else
        match preSel index with
        | .error e => .error e
        | .ok sel =>
            match sel with
            | .obj selo =>
                let toolName := (getKey selo "tool").getD .null
                if ¬ truthy toolName ∨ toolName = .str "none" then
                  .error ⟨"InvalidPlanError",
                    "Plan step " ++ toString index ++ " not executable: no matching tool"⟩
                else if ¬ regHasTool reg toolName then
                  .error ⟨"InvalidPlanError",
                    "Plan step " ++ toString index ++ " not executable: tool '"
                      ++ pyStr toolName ++ "' not registered"⟩
                else
                  let step' := match step with
                    | .obj f => JVal.obj (setKey (setKey f "tool" toolName)
                        "tool_params" ((getKey selo "params").getD (.obj [])))
                    | v => v
                  match preResolve reg preSel rest (index + 1) with
                  | .error e => .error e
                  | .ok rest' => .ok (step' :: rest')
            | _ => .error ⟨"AttributeError", "selection has no attribute get"⟩

/-- An insertion-ordered dict of strings (`id_mapping`). -/
def setAssoc (m : List (String × String)) (k v : String) : List (String × String) :=
  match m with
  | [] => [(k, v)]
  | (k', v') :: rest => if k' = k then (k', v) :: rest else (k', v') :: setAssoc rest k v

def getAssoc (m : List (String × String)) (k : String) : Option String :=
  match m with
  | [] => none
  | (k', v) :: rest => if k' = k then some v else getAssoc rest k

/-- First pass of `_convert_plan_to_workflow_nodes`: `id_mapping` from declared
step ids to engine node ids. -/
def idMapping : List JVal → Nat → List (String × String) → List (String × String)
  | [], _, m => m
  | step :: rest, index, m =>
      match step with
      | .obj f =>
          match getKey f "id" with
          | none => idMapping rest (index + 1) m
          | some .null => idMapping rest (index + 1) m
          | some idv =>
              let toolName := pyOr (getKey f "tool") (.str "unknown")
              idMapping rest (index + 1)
                (setAssoc m (pyStr idv) ("step_" ++ toString index ++ "_" ++ pyStr toolName))
      | _ => idMapping rest (index + 1) m

/-- Second pass of `_convert_plan_to_workflow_nodes`: build a `SimpleToolNode`
per executable step, skipping steps without a description or without a tool. -/
def convertSteps (convSel : Nat → Except PyExc JVal)
    (mapping : List (String × String)) :
    List JVal → Nat → Except PyExc (List WNode)
  | [], _ => .ok []
  | step :: rest, index =>
      let desc := match step with
        | .obj f => (getKey f "description").getD .null
        | _ => .null
      if ¬ truthy desc then convertSteps convSel mapping rest (index + 1)
      else
        let tn0 : Option JVal := match step with
          | .obj f => getKey f "tool"
          | _ => none
        let tp0 : Option JVal := match step with
          | .obj f => getKey f "tool_params"
          | _ => none
        let resolved : Except PyExc (JVal × Option JVal) :=
          if ¬ truthyOpt tn0 then
            match convSel index with
            | .error e => .error e
            | .ok sel =>
                match sel with
                | .obj selo => .ok ((getKey selo "tool").getD .null,
                    some ((getKey selo "params").getD (.obj [])))
                | _ => .error ⟨"AttributeError", "selection has no attribute get"⟩
          else .ok (tn0.getD .null, tp0)
        match resolved with
        | .error e => .error e
        | .ok (toolName, toolParams0) =>
            let toolParams := match toolParams0 with
              | none => JVal.obj []
              | some .null => JVal.obj []
              | some v => v
            if ¬ truthy toolName ∨ toolName = .str "none" then
              convertSteps convSel mapping rest (index + 1)
            else
              let nodeId := "step_" ++ toString index ++ "_" ++ pyStr toolName
              let depsRaw : List JVal := match step with
                | .obj f =>
                    match getKey f "dependencies" with
                    | some (.arr ds) => ds
                    | _ => []
                | _ => []
              let deps := depsRaw.filterMap (fun d => getAssoc mapping (pyStr d))
              match convertSteps convSel mapping rest (index + 1) with
              | .error e => .error e
              | .ok nodes => .ok (⟨nodeId, deps, desc, toolName, toolParams⟩ :: nodes)

/-- `_convert_plan_to_workflow_nodes`: load the task, map plan steps to nodes. -/
def convertPlan (env : RunEnv) (c : Ctx) : Except PyExc (List WNode) :=
  match load_task c.store with
  | .error e => .error e
  | .ok state =>
      match (getKey state "next_steps").getD (.arr []) with
      | .arr ns => convertSteps env.convSel (idMapping ns 0 []) ns 0
      | _ => .error ⟨"TypeError", "next_steps is not a list"⟩

/-- The `self.state_manager.complete_step(...)` call at controller.py:698.  The
call site passes keyword arguments `started_at`, `completed_at`,
`duration_ms_tool` and `duration_ms_wall`, but `WorkingStateManager.complete_step`
(working_state.py:125) accepts only `task_id`, `step_index`, `outcome`,
`artifact`, `tool_name` and `tool_params`; Python therefore raises TypeError at
argument binding, before the store function runs and before anything is
persisted. -/
def controller_complete_step_call (_now : String) (_st : Store) (_stepIndex : Int)
    (_outcome : String) (_artifact _toolName _toolParams : JVal) :
    Except PyExc (Store × Obj) :=
  .error ⟨"TypeError",
    "complete_step() got an unexpected keyword argument 'started_at'"⟩

/-- Result of the bookkeeping loop over executed nodes. -/
inductive StepLoopRes where
  | finished (c : Ctx)
  | raised (e : PyExc) (c : Ctx)
deriving Repr

/-- The per-node bookkeeping loop of `_execute_with_workflow_engine`
(controller.py 648-717): cap checks, FAILED-outcome classification as
RuntimeError, artifact resolution, persisting `current_step`, the
`complete_step` call, and (after it) popping the completed entry off
`next_steps`. -/
def processNodes (now : String) (maxSteps : Option Nat) (results : Obj) :
    List String → Nat → Ctx → StepLoopRes
  | [], _, c => .finished c
  | nid :: rest, index, c =>
      if (match maxSteps with
          | some m => decide (index ≥ m)
          | none => false) then .finished c
      else if index ≥ 100 then
        .raised ⟨"RuntimeError", "MAX_EXECUTED_STEPS exceeded: 100"⟩ c
      else
        let nr := objOf ((getKey results nid).getD (.obj []))
        let tool_name := pyOr (getKey nr "tool_name")
          (pyOr (getKey nr "tool") (.str "unknown"))
        let status := (getKey nr "status").getD (.str "SUCCESS")
        if status = .str "FAILED" then
          if tool_name = .str "none" then
            .raised ⟨"RuntimeError", "execution_step_failed: no_tool"⟩ c
          else
            .raised ⟨"RuntimeError",
              (match pyOr (getKey nr "error") (.str "tool execution failed") with
               | .str s => s
               | v => pyStr v)⟩ c
        else
          let tool_params := pyOr (getKey nr "tool_params")
            (pyOr (getKey nr "params") (.obj []))
          let result_payload := (getKey nr "result").getD .null
          let resolved := match result_payload with
            | .obj pf =>
                if (getKey pf "result").isSome ∧ (getKey pf "status").isSome
                    ∧ (getKey pf "tool").isSome then
                  (getKey pf "result").getD .null
                else result_payload
            | _ => result_payload
          let artifact := match resolved with
            | .obj _ => resolved
            | .null => JVal.str ""
            | v => JVal.str (pyStr v)
          match load_task c.store with
          | .error e => .raised e c
          | .ok state =>
              let nsv := (getKey state "next_steps").getD (.arr [])
              let step_description := match nsv with
                | .arr ns =>
                    if h : index < ns.length then
                      match ns.get ⟨index, h⟩ with
                      | .obj f => (getKey f "description").getD .null
                      | _ => JVal.null
                    else .null
                | _ => .null
              match ctxUpdateEv c [("current_step", .obj [("index", .num index),
                  ("description", step_description)])] (.persistCurrent index) with
              | .error e => .raised e c
              | .ok c1 =>
                  match controller_complete_step_call now c1.store index "SUCCESS"
                      artifact tool_name tool_params with
                  | .error e => .raised e c1
                  | .ok (st', _) =>
                      -- unreachable continuation, mirrored from the source:
                      -- reload, pop the first entry of next_steps, next index
                      let c2 : Ctx := ⟨st', c1.events, c1.snaps ++ [st']⟩
                      match load_task c2.store with
                      | .error e => .raised e c2
                      | .ok state2 =>
                          match (getKey state2 "next_steps").getD (.arr []) with
                          | .arr ns2 =>
                              if ns2 = [] then
                                processNodes now maxSteps results rest (index + 1) c2
                              else
                                match ctxUpdate c2 [("next_steps", .arr ns2.tail)] with
                                | .error e => .raised e c2
                                | .ok c3 =>
                                    processNodes now maxSteps results rest (index + 1) c3
                          | _ => processNodes now maxSteps results rest (index + 1) c2

/-- Result of `_execute_with_workflow_engine`. -/
inductive EweRes where
  | stepsDone (c : Ctx) (executed : Nat)
  | failedState (c : Ctx) (lastErr : String)
  | exn (e : PyExc) (c : Ctx)
  | hang
deriving Repr

/-- The `except RuntimeError` handler of `_execute_with_workflow_engine`
(controller.py 718-737): a RuntimeError whose message starts with
"execution_step_failed" or contains "MAX_EXECUTED_STEPS" is persisted as
`failure_cause="execution_step_failed"` and archived with reason
"failed_execute"; every other RuntimeError is persisted as
`failure_cause="controller_error"` and archived with reason "error"; any other
exception class propagates. -/
def eweFail (e : PyExc) (c2 : Ctx) : EweRes :=
  if e.ty = "RuntimeError" then
    let isExecFail := strStartsWith e.msg "execution_step_failed"
      ∨ strContains e.msg "MAX_EXECUTED_STEPS"
    let failPatch : Obj :=
      if isExecFail then
        [("status", .str "FAILED"), ("error", .str e.msg),
         ("failure_cause", .str "execution_step_failed")]
      else
        [("status", .str "FAILED"), ("error", .str e.msg),
         ("failure_cause", .str "controller_error")]
    let reason := if isExecFail then "failed_execute" else "error"
    match ctxUpdate c2 failPatch with
    | .error e2 => .exn e2 c2
    | .ok c3 =>
        match ctxArchive c3 reason with
        | .error e2 => .exn e2 c3
        | .ok c4 => .failedState c4 e.msg
  else .exn e c2

/-- `_execute_with_workflow_engine` (controller.py 615-752): convert the plan to
nodes, run the whole workflow through the engine, then do the per-node
bookkeeping; RuntimeError outcomes are classified into
`execution_step_failed`/`failed_execute` (messages starting with
"execution_step_failed" or containing "MAX_EXECUTED_STEPS") versus
`controller_error`/"error"; a non-completed engine result is persisted as
`execution_step_failed` with reason "failed_execute". -/
def ewe (reg : List String) (env : RunEnv) (maxSteps : Option Nat)
    (now wid t0 t1 : String) (c : Ctx) : EweRes :=
  match convertPlan env c with
  | .error e => .exn e c
  | .ok nodes =>
      if nodes = [] then .stepsDone c 0
      else
        match execute_workflow reg nodes env.nodeEnvs wid t0 t1 with
        | none => .hang
        | some (evs, result) =>
            let c1 : Ctx := ⟨c.store, c.events ++ evs, c.snaps⟩
            let ro := objOf result
            if getKey ro "status" = some (.str "completed") then
              let results := objOf ((getKey ro "results").getD (.obj []))
              match processNodes now maxSteps results (nodes.map (fun n => n.id)) 0 c1 with
              | .finished c2 => .stepsDone c2 nodes.length
              | .raised e c2 => eweFail e c2
            else
              let errmsg := match getKey ro "error" with
                | some (.str s) => s
                | some v => pyStr v
                | none => "Workflow execution failed"
              match ctxUpdate c1 [("status", .str "FAILED"), ("error", .str errmsg),
                  ("failure_cause", .str "execution_step_failed")] with
              | .error e2 => .exn e2 c1
              | .ok c2 =>
                  match ctxArchive c2 "failed_execute" with
                  | .error e2 => .exn e2 c2
                  | .ok c3 => .failedState c3 errmsg

/-- Outcome of the `try:` body of `run_task`. -/
inductive RunTry where
  | done (c : Ctx) (state : String) (lastErr : Option String)
  | exn (e : PyExc) (c : Ctx)
  | hang
deriving Repr

/-- The body of `run_task` (controller.py 426-526): create the task record, run
planning with its InvalidPlanError handler (failure_cause "planning_invalid",
reason "failed_plan"), the plan-size cap, tool pre-resolution, execution, and
archival as COMPLETED when the run did not fail. -/
def planPhase (reg : List String) (env : RunEnv) (c1 : Ctx) : Except PyExc Ctx :=
  match planner_generate_plan env.plan c1 with
  | .error e => .error e
  | .ok c2 =>
      match load_task c2.store with
      | .error e => .error e
      | .ok state =>
          match (getKey state "next_steps").getD (.arr []) with
          | .arr steps =>
              if steps.length > 100 then
                .error ⟨"InvalidPlanError", "Plan has too many steps: "
                  ++ toString steps.length ++ " > MAX_PLANNED_STEPS=100"⟩
              else
                match preResolve reg env.preSel steps 0 with
                | .error e => .error e
                | .ok steps' => ctxUpdate c2 [("next_steps", .arr steps')]
          | _ => .error ⟨"TypeError", "next_steps is not a list"⟩

def run_task_body (reg : List String) (env : RunEnv)
    (taskId now wid t0 t1 goal : String) (st0 : Store) : RunTry :=
  let c0 : Ctx := ⟨st0, [], []⟩
  match ctxCreate c0 [("goal", .str goal), ("domain", .str "general"),
      ("constraints", .arr []), ("next_steps", .arr [])] taskId now with
  | .error e => .exn e c0
  | .ok c1 =>
      -- PHASE 1: PLANNING (inner try with the InvalidPlanError handler)
      match planPhase reg env c1 with
      | .error e =>
          if e.ty = "InvalidPlanError" then
            -- except InvalidPlanError: persist FAILED / planning_invalid, archive
            match ctxUpdate c1 [("status", .str "FAILED"), ("error", .str e.msg),
                ("failure_cause", .str "planning_invalid")] with
            | .error e2 => .exn e2 c1
            | .ok c2 =>
                match ctxArchive c2 "failed_plan" with
                | .error e2 => .exn e2 c2
                | .ok c3 => .done c3 "FAILED" (some e.msg)
          else .exn e c1
      | .ok c2 =>
          -- PHASE 2: EXECUTING
          match ewe reg env none now wid t0 t1 c2 with
          | .hang => .hang
          | .exn e c3 => .exn e c3
          | .failedState c3 lastErr => .done c3 "FAILED" (some lastErr)
          | .stepsDone c3 _ =>
              -- PHASE 3: ARCHIVING
              match ctxUpdate c3 [("status", .str "COMPLETED")] with
              | .error e => .exn e c3
              | .ok c4 =>
                  match ctxArchive c4 "completed" with
                  | .error e => .exn e c4
                  | .ok c5 => .done c5 "COMPLETED" none

/-- Result of a whole `run_task`/`resume_task` call. -/
structure RunResult where
  returned : Option String
  raised : Option PyExc
  ctx : Ctx
  state : String
  lastErr : Option String
deriving Repr, DecidableEq

/-- The top-level `except Exception` handler of `run_task` (controller.py
528-550): classify as `controller_error`, archive with reason "error", and still
return the task_id. -/
def runTopHandler (taskId : String) (e : PyExc) (c : Ctx) : RunResult :=
  let lastErr := e.ty ++ ": " ++ e.msg
  let c' : Ctx := ⟨c.store, c.events ++ [.topCatch], c.snaps⟩
  match ctxUpdate c' [("status", .str "FAILED"), ("error", .str lastErr),
      ("failure_cause", .str "controller_error")] with
  | .error e2 => ⟨none, some e2, c', "FAILED", some lastErr⟩
  | .ok c2 =>
      match ctxArchive c2 "error" with
      | .error e2 => ⟨none, some e2, c2, "FAILED", some lastErr⟩
      | .ok c3 => ⟨some taskId, none, c3, "FAILED", some lastErr⟩

/-- `ECFController.run_task`: the try body plus the top-level handler.  `none`
models the engine's infinite loop (see `engineReady`). -/
def run_task_model (reg : List String) (env : RunEnv)
    (taskId now wid t0 t1 goal : String) (st0 : Store) : Option RunResult :=
  match run_task_body reg env taskId now wid t0 t1 goal st0 with
  | .hang => none
  | .done c state lastErr => some ⟨some taskId, none, c, state, lastErr⟩
  | .exn e c => some (runTopHandler taskId e c)

/-- The crash-recovery re-queue step of `resume_task` (controller.py 375-394),
reached when the loaded state has a truthy `current_step`: re-queue the in-flight
step's description at the front of `next_steps` (unless the first pending step
already carries that description), clear `current_step`, set status
IN_PROGRESS; a missing/empty description raises ValueError instead. -/
def resumeRequeue (state : Obj) (c : Ctx) : Except PyExc Ctx :=
  match getKey state "current_step" with
  | some (.obj cs) =>
      let desc := (getKey cs "description").getD .null
      if truthy desc then
        match (getKey state "next_steps").getD (.arr []) with
        | .arr ns =>
            let cond : Except PyExc Bool :=
              match ns with
              | [] => .ok true
              | h :: _ =>
                  match h with
                  | .obj hf => .ok (decide (¬ ((getKey hf "description").getD .null) = desc))
                  | _ => .error ⟨"AttributeError", "next step has no attribute get"⟩
            match cond with
            | .error e => .error e
            | .ok doPrepend =>
                let ns' := if doPrepend then (JVal.obj [("description", desc)]) :: ns else ns
                ctxUpdate c [("current_step", .null), ("next_steps", .arr ns'),
                  ("status", .str "IN_PROGRESS")]
        | _ => .error ⟨"TypeError", "next_steps is not a list"⟩
      else .error ⟨"ValueError", "Cannot resume task with incomplete current_step"⟩
  | some _ => .error ⟨"AttributeError", "current_step has no attribute get"⟩
  | none => .ok c

/-- `ECFController.resume_task` (controller.py 367-414): load, refuse terminal
states, re-queue an in-flight step, execute the remaining steps, and archive as
COMPLETED when `next_steps` is exhausted without failure.  Unlike `run_task`,
there is no top-level handler: exceptions propagate to the caller (`raised`). -/
def resume_task_model (reg : List String) (env : RunEnv) (maxSteps : Option Nat)
    (taskId now wid t0 t1 : String) (st0 : Store) : Option RunResult :=
  let c0 : Ctx := ⟨st0, [], []⟩
  match load_task st0 with
  | .error e => some ⟨none, some e, c0, "INITIALIZING", none⟩
  | .ok state =>
      let status := (getKey state "status").getD .null
      if status = .str "COMPLETED" ∨ status = .str "FAILED" then
        some ⟨none, some ⟨"ValueError", "Task " ++ taskId
          ++ " is not resumable (status=" ++ pyStr status ++ ")"⟩, c0,
          "INITIALIZING", none⟩
      else
        match (if truthyOpt (getKey state "current_step") then resumeRequeue state c0
               else .ok c0 : Except PyExc Ctx) with
        | .error e => some ⟨none, some e, c0, "INITIALIZING", none⟩
        | .ok c1 =>
            match ewe reg env maxSteps now wid t0 t1 c1 with
            | .hang => none
            | .exn e c2 => some ⟨none, some e, c2, "EXECUTING", none⟩
            | .failedState c2 lastErr => some ⟨some taskId, none, c2, "FAILED", some lastErr⟩
            | .stepsDone c2 _ =>
                match load_task c2.store with
                | .error e => some ⟨none, some e, c2, "EXECUTING", none⟩
                | .ok st2 =>
                    if ¬ truthyOpt (getKey st2 "next_steps") then
                      match ctxUpdate c2 [("status", .str "COMPLETED")] with
                      | .error e => some ⟨none, some e, c2, "ARCHIVING", none⟩
                      | .ok c3 =>
                          match ctxArchive c3 "completed" with
                          | .error e => some ⟨none, some e, c3, "ARCHIVING", none⟩
                          | .ok c4 => some ⟨some taskId, none, c4, "COMPLETED", none⟩
                    else some ⟨some taskId, none, c2, "EXECUTING", none⟩

/-!
Dictionary lemmas: Python dicts have pairwise-distinct keys, and `update_task`
merges patches by `setKey`.
-/

theorem getKey_eq_none_iff (o : Obj) (k : String) :
    getKey o k = none ↔ ∀ kv ∈ o, kv.1 ≠ k := by
  induction o with
  | nil => simp [getKey]
  | cons hd tl ih =>
      obtain ⟨k', v⟩ := hd
      by_cases h : k' = k
      · subst h
        simp [getKey]
      · simp only [getKey, if_neg h, ih, List.mem_cons]
        constructor
        · rintro hall kv (hkv | hkv)
          · exact hkv ▸ h
          · exact hall kv hkv
        · intro hall kv hkv
          exact hall kv (Or.inr hkv)

theorem getKey_split (o : Obj) (k : String) (v : JVal) (h : getKey o k = some v) :
    ∃ pre suf, o = pre ++ (k, v) :: suf ∧ ∀ kv ∈ pre, kv.1 ≠ k := by
  induction o with
  | nil => simp [getKey] at h
  | cons hd tl ih =>
      obtain ⟨k', v'⟩ := hd
      by_cases hk : k' = k
      · subst hk
        have hv : v' = v := by simpa [getKey] using h
        exact ⟨[], tl, by rw [hv]; rfl, by simp⟩
      · simp only [getKey, if_neg hk] at h
        obtain ⟨pre, suf, heq, hpre⟩ := ih h
        refine ⟨(k', v') :: pre, suf, by simp [heq], ?_⟩
        intro kv hkv
        rcases List.mem_cons.mp hkv with h' | h'
        · exact h' ▸ hk
        · exact hpre kv h'

theorem keysNodup_getKey_unique (o : Obj) (hnod : (o.map Prod.fst).Nodup)
    (k : String) (v : JVal) (h : getKey o k = some v) :
    ∃ pre suf, o = pre ++ (k, v) :: suf ∧ (∀ kv ∈ pre, kv.1 ≠ k) ∧
      (∀ kv ∈ suf, kv.1 ≠ k) := by
  obtain ⟨pre, suf, heq, hpre⟩ := getKey_split o k v h
  refine ⟨pre, suf, heq, hpre, ?_⟩
  intro kv hkv hk
  have hkeys : (o.map Prod.fst) = pre.map Prod.fst ++ k :: suf.map Prod.fst := by
    rw [heq]; simp
  rw [hkeys] at hnod
  have hn2 : (k :: suf.map Prod.fst).Nodup := (List.nodup_append.mp hnod).2.1
  have hknotin : k ∉ suf.map Prod.fst := (List.nodup_cons.mp hn2).1
  exact hknotin (hk ▸ List.mem_map_of_mem Prod.fst hkv)

/-- With distinct patch keys, a key bound in the patch gets the patch value. -/
theorem getKey_mergeObj_of_some (o p : Obj) (hnod : (p.map Prod.fst).Nodup)
    (k : String) (v : JVal) (h : getKey p k = some v) :
    getKey (mergeObj o p) k = some v := by
  obtain ⟨pre, suf, heq, _, hsuf⟩ := keysNodup_getKey_unique p hnod k v h
  rw [heq]
  exact getKey_mergeObj_last o pre k v suf hsuf

/-- A key not bound in the patch keeps its value. -/
theorem getKey_mergeObj_of_none (o p : Obj) (k : String)
    (h : getKey p k = none) : getKey (mergeObj o p) k = getKey o k :=
  getKey_mergeObj_not_mem o p k ((getKey_eq_none_iff p k).mp h)

theorem setKey_keys (o : Obj) (k : String) (v : JVal) :
    (setKey o k v).map Prod.fst = o.map Prod.fst
      ∨ (setKey o k v).map Prod.fst = o.map Prod.fst ++ [k] := by
  induction o with
  | nil => right; simp [setKey]
  | cons hd tl ih =>
      obtain ⟨k', v'⟩ := hd
      by_cases h : k' = k
      · left; simp [setKey, h]
      · rcases ih with h' | h'
        · left; simp [setKey, h, h']
        · right; simp [setKey, h, h']

theorem setKey_keys_nodup (o : Obj) (k : String) (v : JVal)
    (hnod : (o.map Prod.fst).Nodup) : ((setKey o k v).map Prod.fst).Nodup := by
  induction o with
  | nil => simp [setKey]
  | cons hd tl ih =>
      obtain ⟨k', v'⟩ := hd
      have hnod' : (k' :: tl.map Prod.fst).Nodup := by
        simpa only [List.map_cons] using hnod
      have h1 := (List.nodup_cons.mp hnod').1
      have h2 := (List.nodup_cons.mp hnod').2
      by_cases h : k' = k
      · simpa [setKey, h] using hnod
      · simp only [setKey, if_neg h, List.map_cons]
        refine List.nodup_cons.mpr ⟨?_, ih h2⟩
        intro hc
        rcases setKey_keys tl k v with h' | h'
        · exact h1 (h' ▸ hc)
        · rw [h'] at hc
          rcases List.mem_append.mp hc with hm | hm
          · exact h1 hm
          · exact h (by simpa using hm)

theorem setKey_isSome (o : Obj) (k k2 : String) (v : JVal)
    (h : (getKey o k2).isSome) : (getKey (setKey o k v) k2).isSome := by
  by_cases hk : k = k2
  · subst hk; rw [getKey_setKey_same]; rfl
  · rw [getKey_setKey_other o k k2 v hk]; exact h

theorem mergeObj_isSome (o p : Obj) (k : String) (h : (getKey o k).isSome) :
    (getKey (mergeObj o p) k).isSome := by
  induction p generalizing o with
  | nil => simpa [mergeObj] using h
  | cons hd tl ih =>
      simp only [mergeObj, List.foldl_cons]
      exact ih (setKey o hd.1 hd.2) (setKey_isSome o hd.1 k hd.2 h)

theorem missingFields_eq_nil_iff (o : Obj) :
    missingFields o = [] ↔ ∀ f ∈ REQUIRED_FIELDS, (getKey o f).isSome := by
  unfold missingFields
  rw [List.filter_eq_nil_iff]
  constructor
  · intro h f hf
    have := h f hf
    rcases hg : getKey o f with _ | v
    · rw [hg] at this; simp at this
    · rfl
  · intro h f hf
    have := h f hf
    rcases hg : getKey o f with _ | v
    · rw [hg] at this; simp at this
    · simp [hg]

theorem missingFields_mergeObj (o p : Obj) (h : missingFields o = []) :
    missingFields (mergeObj o p) = [] := by
  rw [missingFields_eq_nil_iff] at h ⊢
  intro f hf
  exact mergeObj_isSome o p f (h f hf)

/-- An existing, schema-valid task file on disk. -/
def GoodStore (s : Store) : Prop :=
  ∃ o, s.file = some o ∧ missingFields o = []

/-- Under a valid file, `update_task` always succeeds and replaces the file with
exactly the merge. -/
theorem update_task_good (s : Store) (o : Obj) (patch : Obj)
    (hf : s.file = some o) (hv : missingFields o = []) :
    update_task false s patch =
      .ok (⟨some (mergeObj o patch), s.archived⟩, mergeObj o patch) := by
  simp only [update_task, load_task, validate_state, hf, hv,
    missingFields_mergeObj o patch hv]
  rfl

theorem archive_task_good (s : Store) (o : Obj) (hf : s.file = some o)
    (reason : String) :
    archive_task s reason = .ok ⟨none, s.archived ++ [(o, reason)]⟩ := by
  unfold archive_task
  rw [hf]

theorem GoodStore.update (s : Store) (hg : GoodStore s) (patch : Obj) :
    ∃ o, s.file = some o ∧
      update_task false s patch =
        .ok (⟨some (mergeObj o patch), s.archived⟩, mergeObj o patch) ∧
      GoodStore ⟨some (mergeObj o patch), s.archived⟩ := by
  obtain ⟨o, hf, hv⟩ := hg
  exact ⟨o, hf, update_task_good s o patch hf hv,
    ⟨mergeObj o patch, rfl, missingFields_mergeObj o patch hv⟩⟩

/-!
## Claim theorems

Concrete fixtures used by counterexamples and witnesses.
-/

/-- A well-formed plan step as the planner's prompt requests them. -/
def planStep (i descr : String) (deps : List String) : JVal :=
  .obj [("id", .str i), ("description", .str descr),
        ("dependencies", .arr (deps.map JVal.str)), ("estimated_duration", .str "1m")]

/-- A plan with an empty `tasks` list: an acyclic dependency graph with all (no)
dependencies resolvable. -/
def emptyTasksPlan : JVal := .obj [("tasks", .arr [])]

/-- Two steps sharing id "1"; the first declares a self-dependency, the second
(which wins in the adjacency dict) declares none. -/
def shadowCyclePlan : JVal :=
  .obj [("tasks", .arr [planStep "1" "a" ["1"], planStep "1" "b" []])]

/-- Two steps sharing id "1"; the shadowed first step depends on the undeclared
id "9". -/
def shadowMissingDepPlan : JVal :=
  .obj [("tasks", .arr [planStep "1" "a" ["9"], planStep "1" "b" []])]

/-- A plan whose only entry has no description at all. -/
def noDescPlan : JVal := .obj [("tasks", .arr [.obj [("id", .str "1")]])]

/-- A two-step plan with a genuine dependency cycle A → B → A. -/
def cyclePlan : JVal :=
  .obj [("tasks", .arr [planStep "A" "a" ["B"], planStep "B" "b" ["A"]])]

/-- C4: for a task with an existing valid file, `update_task`'s
load-merge-validate-atomic-write either fails (injected write failure) producing
no new on-disk state — the file keeps exactly the prior complete state — or
succeeds with the file holding exactly the merge of the old state and the patch;
no other outcome (in particular no partially-written mix) is possible, and under
a valid file the validation of the merged state cannot fail. -/
theorem claim_C4 (wr : Bool) (s : Store) (o patch : Obj)
    (hf : s.file = some o) (hv : missingFields o = []) :
    (update_task wr s patch = .error ⟨"OSError", "write failed"⟩ ∧ wr = true) ∨
    (update_task wr s patch =
        .ok (⟨some (mergeObj o patch), s.archived⟩, mergeObj o patch) ∧ wr = false) := by
  rcases wr with _ | _
  · exact Or.inr ⟨update_task_good s o patch hf hv, rfl⟩
  · left
    refine ⟨?_, rfl⟩
    simp only [update_task, load_task, validate_state, hf, hv,
      missingFields_mergeObj o patch hv]
    rfl

theorem claim_C4_witness :
    (update_task false ⟨some (create_state [] "task_w" "NOW"), []⟩
        [("status", .str "IN_PROGRESS")] =
          .error ⟨"OSError", "write failed"⟩ ∧ false = true) ∨
    (update_task false ⟨some (create_state [] "task_w" "NOW"), []⟩
        [("status", .str "IN_PROGRESS")] =
      .ok (⟨some (mergeObj (create_state [] "task_w" "NOW")
          [("status", .str "IN_PROGRESS")]), []⟩,
        mergeObj (create_state [] "task_w" "NOW") [("status", .str "IN_PROGRESS")]) ∧
      false = false) :=
  claim_C4 false ⟨some (create_state [] "task_w" "NOW"), []⟩
    (create_state [] "task_w" "NOW") [("status", .str "IN_PROGRESS")] rfl (by decide)

/-- C10: on a task state with a truthy dict `current_step` and a list
`completed_steps`, `complete_step` appends exactly one record to
`completed_steps`, sets `current_step` to null and `status` to IN_PROGRESS, and
changes nothing else — every other key, including `next_steps` (it does not pop
the pending step), keeps exactly its prior value. -/
theorem claim_C10 (now : String) (s : Store) (o cs : Obj)
    (hnod : (o.map Prod.fst).Nodup)
    (hf : s.file = some o) (hv : missingFields o = [])
    (hcs : getKey o "current_step" = some (.obj cs)) (hne : cs ≠ [])
    (steps : List JVal) (hsteps : getKey o "completed_steps" = some (.arr steps))
    (idx : Int) (outcome : String) (artifact tool_name tool_params : JVal) :
    ∃ o', complete_step now s idx outcome artifact tool_name tool_params =
        .ok (⟨some o', s.archived⟩, o') ∧
      getKey o' "completed_steps" = some (.arr (steps ++
        [.obj [("index", .num idx),
               ("description", (getKey cs "description").getD .null),
               ("outcome", .str outcome), ("artifact", artifact),
               ("tool_name", tool_name), ("tool_params", tool_params),
               ("completed_at", .str now)]])) ∧
      getKey o' "current_step" = some .null ∧
      getKey o' "status" = some (.str "IN_PROGRESS") ∧
      ∀ k, k ≠ "completed_steps" → k ≠ "current_step" → k ≠ "status" →
        getKey o' k = getKey o k := by
  have htr : truthyOpt (getKey o "current_step") = true := by
    rw [hcs]; simpa [truthyOpt, truthy] using hne
  set rec : JVal := .obj [("index", .num idx),
    ("description", (getKey cs "description").getD .null),
    ("outcome", .str outcome), ("artifact", artifact),
    ("tool_name", tool_name), ("tool_params", tool_params),
    ("completed_at", .str now)] with hrec
  set p : Obj := setKey (setKey (setKey o "completed_steps" (.arr (steps ++ [rec])))
    "current_step" .null) "status" (.str "IN_PROGRESS") with hp
  have hcall : complete_step now s idx outcome artifact tool_name tool_params =
      update_task false s p := by
    simp only [complete_step, load_task, validate_state, hf, hv, hcs, hsteps]
    rw [if_neg (by simp [truthyOpt, truthy, hne])]
  have hupd := update_task_good s o p hf hv
  have hpnod : (p.map Prod.fst).Nodup :=
    setKey_keys_nodup _ _ _ (setKey_keys_nodup _ _ _ (setKey_keys_nodup _ _ _ hnod))
  have hp_completed : getKey p "completed_steps" = some (.arr (steps ++ [rec])) := by
    rw [hp, getKey_setKey_other _ _ _ _ (by decide),
      getKey_setKey_other _ _ _ _ (by decide), getKey_setKey_same]
  have hp_current : getKey p "current_step" = some .null := by
    rw [hp, getKey_setKey_other _ _ _ _ (by decide), getKey_setKey_same]
  have hp_status : getKey p "status" = some (.str "IN_PROGRESS") := by
    rw [hp, getKey_setKey_same]
  refine ⟨mergeObj o p, by rw [hcall, hupd], ?_, ?_, ?_, ?_⟩
  · exact getKey_mergeObj_of_some o p hpnod _ _ hp_completed
  · exact getKey_mergeObj_of_some o p hpnod _ _ hp_current
  · exact getKey_mergeObj_of_some o p hpnod _ _ hp_status
  · intro k hk1 hk2 hk3
    have hpk : getKey p k = getKey o k := by
      rw [hp, getKey_setKey_other _ _ _ _ (fun h => hk3 h.symm),
        getKey_setKey_other _ _ _ _ (fun h => hk2 h.symm),
        getKey_setKey_other _ _ _ _ (fun h => hk1 h.symm)]
    rcases hok : getKey o k with _ | v
    · exact (getKey_mergeObj_of_none o p k (hpk.trans hok)).trans hok
    · exact getKey_mergeObj_of_some o p hpnod k v (hpk.trans hok)

theorem claim_C10_witness :
    ∃ o', complete_step "NOW"
        ⟨some (mergeObj (create_state [("goal", .str "w")] "task_w" "NOW")
          [("current_step", .obj [("index", .num 0), ("description", .str "s0")])]), []⟩
        0 "SUCCESS" (.str "out") (.str "text_output") (.obj []) =
        .ok (⟨some o', []⟩, o') ∧
      getKey o' "completed_steps" = some (.arr ([] ++
        [.obj [("index", .num 0), ("description",
             (getKey [("index", JVal.num 0), ("description", JVal.str "s0")]
               "description").getD .null),
           ("outcome", .str "SUCCESS"), ("artifact", .str "out"),
           ("tool_name", .str "text_output"), ("tool_params", .obj []),
           ("completed_at", .str "NOW")]])) ∧
      getKey o' "current_step" = some .null ∧
      getKey o' "status" = some (.str "IN_PROGRESS") ∧
      ∀ k, k ≠ "completed_steps" → k ≠ "current_step" → k ≠ "status" →
        getKey o' k = getKey (mergeObj (create_state [("goal", .str "w")] "task_w" "NOW")
          [("current_step", .obj [("index", .num 0), ("description", .str "s0")])]) k :=
  claim_C10 "NOW" _ _ [("index", JVal.num 0), ("description", JVal.str "s0")]
    (by decide) rfl (by decide) (by decide) (by decide) [] (by decide)
    0 "SUCCESS" (.str "out") (.str "text_output") (.obj [])

theorem claim_C8_witness :
    validate_plan cyclePlan =
      .error ⟨"InvalidPlanError", "Plan contains circular dependencies"⟩ := by
  have h := claim_C8 [("tasks", .arr [planStep "A" "a" ["B"], planStep "B" "b" ["A"]])]
    [planStep "A" "a" ["B"], planStep "B" "b" ["A"]]
    [("A", ["B"]), ("B", ["A"])] (by decide) (by decide) (by decide) (by decide)
    (by decide)
  exact h.2.2.1 ⟨"A", by decide, ⟨["B"], by
    simp only [EdgeChain, List.cons_append, List.nil_append]
    refine ⟨by decide, by decide, trivial⟩⟩⟩

/-- C8 counterexample: the claim fails as stated.  The empty plan is a valid DAG
(no cycle, all of its — zero — dependencies resolvable) yet the validator rejects
it; and a plan whose first step declares a self-referencing dependency is
accepted when a later duplicate id shadows it in the adjacency dict. -/
theorem claim_C8_counterexample :
    (validate_plan emptyTasksPlan =
        .error ⟨"InvalidPlanError", "Plan contains no tasks"⟩ ∧
      ¬ HasCycle (adjLookup []) []) ∧
    (validate_plan shadowCyclePlan = .ok () ∧
      planEntries [planStep "1" "a" ["1"], planStep "1" "b" []] =
        .ok [("1", ["1"]), ("1", [])] ∧
      ∃ e ∈ [("1", ["1"]), ("1", [])], e.1 ∈ e.2) := by
  refine ⟨⟨by decide, ?_⟩, by decide, by decide, ⟨("1", ["1"]), by decide, by decide⟩⟩
  rintro ⟨v, hv, _⟩
  simp at hv

/-- C9 (amended): validation succeeds only when the plan holds a non-empty list
under the `tasks` key (the `steps` key is not recognized, and entries' ids and
descriptions are not checked); and in a plan with pairwise-distinct step ids,
any dependency on an undeclared id makes validation fail with the
"depends on non-existent task" error naming a genuinely missing id. -/
theorem claim_C9 :
    (∀ plan : JVal, validate_plan plan = .ok () →
       ∃ fs tasks, plan = .obj fs ∧ getKey fs "tasks" = some (.arr tasks) ∧
         tasks ≠ []) ∧
    (∀ (fs : Obj) (tasks : List JVal) (entries : List (String × List String)),
       getKey fs "tasks" = some (.arr tasks) → tasks ≠ [] →
       planEntries tasks = .ok entries → (entries.map Prod.fst).Nodup →
       ∀ e ∈ entries, ∀ d ∈ e.2, d ∉ entries.map Prod.fst →
       ∃ t d', validate_plan (.obj fs) = .error ⟨"InvalidPlanError",
           "Task " ++ t ++ " depends on non-existent task " ++ d'⟩ ∧
         d' ∉ entries.map Prod.fst) :=
  ⟨validate_plan_ok_schema,
   fun fs tasks entries h1 h2 h3 h4 e he d hd hdn =>
     validate_plan_missing_dep fs tasks entries h1 h2 h3 h4 e he d hd hdn⟩

theorem claim_C9_witness :
    ∃ t d', validate_plan (.obj [("tasks", .arr [planStep "1" "x" ["2"]])]) =
        .error ⟨"InvalidPlanError",
          "Task " ++ t ++ " depends on non-existent task " ++ d'⟩ ∧
      d' ∉ [("1", ["2"])].map Prod.fst :=
  claim_C9.2 [("tasks", .arr [planStep "1" "x" ["2"]])] [planStep "1" "x" ["2"]]
    [("1", ["2"])] rfl (by decide) (by decide) (by decide)
    ("1", ["2"]) (by decide) "2" (by decide) (by decide)

/-- C9 counterexample: the claim fails as stated.  A plan whose only entry has
no `description` key at all (and the schema places no check on `id` or
`description`) passes validation; and with duplicate ids, a shadowed step's
dependency on the undeclared id "9" goes unchecked and the plan is accepted. -/
theorem claim_C9_counterexample :
    (validate_plan noDescPlan = .ok () ∧
      getKey [("id", JVal.str "1")] "description" = none) ∧
    (validate_plan shadowMissingDepPlan = .ok () ∧
      planEntries [planStep "1" "a" ["9"], planStep "1" "b" []] =
        .ok [("1", ["9"]), ("1", [])] ∧
      ∃ e ∈ [("1", ["9"]), ("1", [])], ∃ d ∈ e.2,
        d ∉ [("1", ["9"]), ("1", [])].map Prod.fst) := by
  refine ⟨⟨by decide, by decide⟩, by decide, by decide,
    ⟨("1", ["9"]), by decide, "9", by decide, by decide⟩⟩

/-!
Fixtures for the end-to-end controller scenarios: the spec's deterministic
single-step goal through the pass-through `text_output` tool, with the default
registry of controller.py 173-177.
-/

def helloText : String := "Hello, deterministic world"

def helloPlanStep : JVal := planStep "1" ("Return exactly: " ++ helloText) []

def helloSelection : JVal := .obj [("tool", .str "text_output"),
  ("params", .obj [("text", .str helloText)]),
  ("rationale", .str "Deterministic output")]

def defaultReg : List String :=
  ["web_search", "text_output", "voice_stt", "voice_tts", "voice_wake_word"]

def helloEnv : RunEnv :=
  { plan := .ok (.obj [("tasks", .arr [helloPlanStep])]),
    preSel := fun _ => .ok helloSelection,
    convSel := fun _ => .ok helloSelection,
    nodeEnvs := fun _ => ⟨.ok helloSelection, .ok (.str helloText)⟩ }

def helloRun : Option RunResult :=
  run_task_model defaultReg helloEnv "task_hello" "NOW" "wf" "T0" "T1"
    ("Return exactly: " ++ helloText) Store.empty

/-- C1 (code-bug exhibit): on the spec's deterministic scenario — planning
succeeds, the single step's tool execution returns SUCCESS with the pass-through
text — the run does NOT reach COMPLETED: the `complete_step` call site passes
keyword arguments the store's `complete_step` signature does not accept, so the
step is never recorded, and the task is archived FAILED with
`failure_cause="controller_error"` and reason "error", with `completed_steps`
still empty (the repo's own end-to-end tests assert COMPLETED here, so the code
contradicts its tests). -/
theorem claim_C1 :
    (helloRun.map fun r => (r.returned, r.raised, r.state, r.lastErr)) =
      some (some "task_hello", none, "FAILED",
        some "TypeError: complete_step() got an unexpected keyword argument 'started_at'") ∧
    (helloRun.map fun r => r.ctx.store.file) = some none ∧
    (helloRun.map fun r => r.ctx.store.archived.map fun p =>
        (p.2, getKey p.1 "status", getKey p.1 "failure_cause",
          getKey p.1 "completed_steps")) =
      some [("error", some (.str "FAILED"), some (.str "controller_error"),
        some (.arr []))] := by
  exact ⟨by decide, by decide, by decide⟩

/-- C3 counterexample: in the deterministic single-step run, the tool execution
of step 0 (inside the workflow engine) happens strictly before the controller
persists step 0 as `current_step` — the claimed persist-before-execute order is
violated at this input. -/
theorem claim_C3_counterexample :
    (helloRun.map fun r => r.ctx.events) =
      some [.execNode 0, .persistCurrent 0, .topCatch, .archived "error"] ∧
    [REvent.execNode 0, .persistCurrent 0, .topCatch, .archived "error"].indexOf
        (REvent.execNode 0) <
      [REvent.execNode 0, .persistCurrent 0, .topCatch, .archived "error"].indexOf
        (REvent.persistCurrent 0) := by
  exact ⟨by decide, by decide⟩

/-!
Plumbing lemmas for the controller-level theorems: what each `ctx` operation
does to the event log and to the on-disk state.
-/

def onlyExec (l : List REvent) : Prop := ∀ ev ∈ l, ∃ i, ev = REvent.execNode i

def onlyPersist (l : List REvent) : Prop := ∀ ev ∈ l, ∃ i, ev = REvent.persistCurrent i

def noExecTop (l : List REvent) : Prop :=
  ∀ ev ∈ l, (∀ i, ev ≠ REvent.execNode i) ∧ ev ≠ REvent.topCatch

theorem missingFields_create (spec : Obj) (taskId now : String) :
    missingFields (create_state spec taskId now) = [] := rfl

theorem create_task_ok (spec : Obj) (taskId now : String) (st : Store) :
    create_task spec taskId now st =
      .ok ({ st with file := some (create_state spec taskId now) },
        create_state spec taskId now) := by
  simp only [create_task, validate_state, missingFields_create]

theorem ctxCreate_ok (c : Ctx) (spec : Obj) (taskId now : String) :
    ctxCreate c spec taskId now =
      .ok ⟨{ c.store with file := some (create_state spec taskId now) }, c.events,
        c.snaps ++ [{ c.store with file := some (create_state spec taskId now) }]⟩ := by
  simp only [ctxCreate, create_task_ok]

theorem load_task_ok_inv (st : Store) (state : Obj) (h : load_task st = .ok state) :
    st.file = some state ∧ missingFields state = [] := by
  unfold load_task validate_state at h
  rcases hf : st.file with _ | o <;> simp only [hf] at h
  · exact Except.noConfusion h
  · rcases hv : missingFields o with _ | ⟨m, ms⟩ <;> simp only [hv] at h
    · injection h with h; subst h; exact ⟨rfl, hv⟩
    · exact Except.noConfusion h

theorem update_task_ok_inv (s : Store) (p : Obj) (s' : Store) (res : Obj)
    (h : update_task false s p = .ok (s', res)) :
    ∃ o, s.file = some o ∧ missingFields o = [] ∧ res = mergeObj o p ∧
      s' = ⟨some (mergeObj o p), s.archived⟩ ∧ missingFields (mergeObj o p) = [] := by
  unfold update_task at h
  rcases hl : load_task s with e | state <;> simp only [hl] at h
  · exact Except.noConfusion h
  · obtain ⟨hf, hv⟩ := load_task_ok_inv s state hl
    simp only [validate_state] at h
    rcases hv2 : missingFields (mergeObj state p) with _ | ⟨m2, ms2⟩ <;>
      simp only [hv2] at h
    · simp only [Bool.false_eq_true, if_false, Except.ok.injEq, Prod.mk.injEq] at h
      obtain ⟨h1, h2⟩ := h
      exact ⟨state, hf, hv, h2.symm, h1.symm, hv2⟩
    · exact Except.noConfusion h

theorem ctxUpdate_ok (c : Ctx) (p : Obj) (c' : Ctx) (h : ctxUpdate c p = .ok c') :
    ∃ o, c.store.file = some o ∧ missingFields o = [] ∧
      c' = ⟨⟨some (mergeObj o p), c.store.archived⟩, c.events,
        c.snaps ++ [⟨some (mergeObj o p), c.store.archived⟩]⟩ ∧
      missingFields (mergeObj o p) = [] := by
  unfold ctxUpdate at h
  rcases hu : update_task false c.store p with _ | ⟨s', res⟩
  · rw [hu] at h; simp at h
  · rw [hu] at h
    obtain ⟨o, hf, hv, hres, hs', hv2⟩ := update_task_ok_inv c.store p s' res hu
    simp only [Except.ok.injEq] at h
    exact ⟨o, hf, hv, by rw [← h, hs'], hv2⟩

theorem ctxUpdate_good (c : Ctx) (p : Obj) (hg : GoodStore c.store) :
    ∃ o, c.store.file = some o ∧
      ctxUpdate c p = .ok ⟨⟨some (mergeObj o p), c.store.archived⟩, c.events,
        c.snaps ++ [⟨some (mergeObj o p), c.store.archived⟩]⟩ := by
  obtain ⟨o, hf, hv⟩ := hg
  refine ⟨o, hf, ?_⟩
  unfold ctxUpdate
  rw [update_task_good c.store o p hf hv]

theorem ctxUpdateEv_ok (c : Ctx) (p : Obj) (ev : REvent) (c' : Ctx)
    (h : ctxUpdateEv c p ev = .ok c') :
    ∃ o, c.store.file = some o ∧ missingFields o = [] ∧
      c' = ⟨⟨some (mergeObj o p), c.store.archived⟩, c.events ++ [ev],
        c.snaps ++ [⟨some (mergeObj o p), c.store.archived⟩]⟩ ∧
      missingFields (mergeObj o p) = [] := by
  unfold ctxUpdateEv at h
  rcases hu : ctxUpdate c p with _ | c1
  · rw [hu] at h; simp at h
  · rw [hu] at h
    obtain ⟨o, hf, hv, hc1, hv2⟩ := ctxUpdate_ok c p c1 hu
    simp only [Except.ok.injEq] at h
    refine ⟨o, hf, hv, ?_, hv2⟩
    rw [← h, hc1]

theorem ctxArchive_ok (c : Ctx) (reason : String) (c' : Ctx)
    (h : ctxArchive c reason = .ok c') :
    ∃ o, c.store.file = some o ∧
      c' = ⟨⟨none, c.store.archived ++ [(o, reason)]⟩,
        c.events ++ [.archived reason],
        c.snaps ++ [⟨none, c.store.archived ++ [(o, reason)]⟩]⟩ := by
  unfold ctxArchive archive_task at h
  rcases hf : c.store.file with _ | o
  · rw [hf] at h; simp at h
  · rw [hf] at h
    simp only [Except.ok.injEq] at h
    exact ⟨o, rfl, h.symm⟩

theorem ctxArchive_good (c : Ctx) (reason : String) (o : Obj)
    (hf : c.store.file = some o) :
    ctxArchive c reason = .ok ⟨⟨none, c.store.archived ++ [(o, reason)]⟩,
      c.events ++ [.archived reason],
      c.snaps ++ [⟨none, c.store.archived ++ [(o, reason)]⟩]⟩ := by
  unfold ctxArchive archive_task
  rw [hf]

theorem onlyPersist_noExecTop (l : List REvent) (h : onlyPersist l) : noExecTop l := by
  intro ev hev
  obtain ⟨i, rfl⟩ := h ev hev
  exact ⟨fun _ h => REvent.noConfusion h, fun h => REvent.noConfusion h⟩

theorem noExecTop_append (a b : List REvent) (ha : noExecTop a) (hb : noExecTop b) :
    noExecTop (a ++ b) := by
  intro ev hev
  rcases List.mem_append.mp hev with h | h
  · exact ha ev h
  · exact hb ev h

theorem noExecTop_archived (r : String) : noExecTop [REvent.archived r] := by
  intro ev hev
  rcases List.mem_singleton.mp hev with rfl
  exact ⟨fun _ h => REvent.noConfusion h, fun h => REvent.noConfusion h⟩

theorem onlyExec_nil : onlyExec [] := by intro ev hev; cases hev

theorem onlyPersist_nil : onlyPersist [] := by intro ev hev; cases hev

theorem noExecTop_nil : noExecTop [] := by intro ev hev; cases hev


/-- One-step unfolding of the bookkeeping loop on a non-empty node list. -/
theorem processNodes_cons (now : String) (maxSteps : Option Nat) (results : Obj)
    (nid : String) (rest : List String) (index : Nat) (c : Ctx) :
    processNodes now maxSteps results (nid :: rest) index c =
      if (match maxSteps with
          | some m => decide (index ≥ m)
          | none => false) then .finished c
      else if index ≥ 100 then
        .raised ⟨"RuntimeError", "MAX_EXECUTED_STEPS exceeded: 100"⟩ c
      else
        let nr := objOf ((getKey results nid).getD (.obj []))
        let tool_name := pyOr (getKey nr "tool_name")
          (pyOr (getKey nr "tool") (.str "unknown"))
        let status := (getKey nr "status").getD (.str "SUCCESS")
        if status = .str "FAILED" then
          if tool_name = .str "none" then
            .raised ⟨"RuntimeError", "execution_step_failed: no_tool"⟩ c
          else
            .raised ⟨"RuntimeError",
              (match pyOr (getKey nr "error") (.str "tool execution failed") with
               | .str s => s
               | v => pyStr v)⟩ c
        else
          let tool_params := pyOr (getKey nr "tool_params")
            (pyOr (getKey nr "params") (.obj []))
          let result_payload := (getKey nr "result").getD .null
          let resolved := match result_payload with
            | .obj pf =>
                if (getKey pf "result").isSome ∧ (getKey pf "status").isSome
                    ∧ (getKey pf "tool").isSome then
                  (getKey pf "result").getD .null
                else result_payload
            | _ => result_payload
          let artifact := match resolved with
            | .obj _ => resolved
            | .null => JVal.str ""
            | v => JVal.str (pyStr v)
          match load_task c.store with
          | .error e => .raised e c
          | .ok state =>
              let nsv := (getKey state "next_steps").getD (.arr [])
              let step_description := match nsv with
                | .arr ns =>
                    if h : index < ns.length then
                      match ns.get ⟨index, h⟩ with
                      | .obj f => (getKey f "description").getD .null
                      | _ => JVal.null
                    else .null
                | _ => .null
              match ctxUpdateEv c [("current_step", .obj [("index", .num index),
                  ("description", step_description)])] (.persistCurrent index) with
              | .error e => .raised e c
              | .ok c1 =>
                  .raised ⟨"TypeError",
                    "complete_step() got an unexpected keyword argument 'started_at'"⟩
                    c1 := by
  rw [processNodes.eq_def]
  simp only [controller_complete_step_call]

/-- The boolean form of the spec's step invariant:
`len(completed_steps) == current_step.index` whenever `current_step` is set. -/
def stepInvB (o : Obj) : Bool :=
  match getKey o "current_step" with
  | some (.obj cs) =>
      match getKey cs "index", getKey o "completed_steps" with
      | some (.num i), some (.arr l) => decide ((l.length : Int) = i)
      | _, _ => false
  | some .null => true
  | none => true
  | _ => false

/-- The invariant a fresh `run_task` actually maintains: `completed_steps` stays
empty (the broken `complete_step` call never appends) and `current_step` is
null or the index-0 step. -/
def CurOk (o : Obj) : Prop :=
  getKey o "completed_steps" = some (.arr []) ∧
  (getKey o "current_step" = some .null ∨
   ∃ d, getKey o "current_step" = some (.obj [("index", .num 0),
     ("description", d)]))

def StoreCur (s : Store) : Prop := ∀ o, s.file = some o → CurOk o

def CtxCur (c : Ctx) : Prop := StoreCur c.store ∧ ∀ s ∈ c.snaps, StoreCur s

theorem CurOk_stepInvB (o : Obj) (hc : CurOk o) : stepInvB o = true := by
  obtain ⟨hcs, hcur | ⟨d, hcur⟩⟩ := hc
  · simp [stepInvB, hcur]
  · simp [stepInvB, hcur, hcs, getKey]

theorem CurOk_create (spec : Obj) (t n : String) : CurOk (create_state spec t n) :=
  ⟨rfl, Or.inl rfl⟩

theorem CurOk_frame (o p : Obj) (h1 : getKey p "completed_steps" = none)
    (h2 : getKey p "current_step" = none) (hc : CurOk o) : CurOk (mergeObj o p) := by
  unfold CurOk
  rw [getKey_mergeObj_of_none o p _ h1, getKey_mergeObj_of_none o p _ h2]
  exact hc

theorem CurOk_persist (o : Obj) (sd : JVal) (hc : CurOk o) :
    CurOk (mergeObj o [("current_step",
      .obj [("index", .num 0), ("description", sd)])]) := by
  constructor
  · rw [getKey_mergeObj_of_none o [("current_step",
      .obj [("index", .num 0), ("description", sd)])] "completed_steps" rfl]
    exact hc.1
  · exact Or.inr ⟨sd, getKey_mergeObj_of_some o _ (by simp) _ _ rfl⟩

theorem StoreCur_none (s : Store) (h : s.file = none) : StoreCur s :=
  fun o ho => by rw [h] at ho; exact Option.noConfusion ho

theorem ctxUpdate_cur (c : Ctx) (p : Obj) (c' : Ctx) (h : ctxUpdate c p = .ok c')
    (hp : ∀ o, CurOk o → CurOk (mergeObj o p)) (hc : CtxCur c) : CtxCur c' := by
  obtain ⟨o, hf, hv, hc', hv2⟩ := ctxUpdate_ok c p c' h
  subst hc'
  have hco : CurOk (mergeObj o p) := hp o (hc.1 o hf)
  have hsc : StoreCur ⟨some (mergeObj o p), c.store.archived⟩ := by
    intro o' ho'
    injection ho' with ho'
    subst ho'
    exact hco
  refine ⟨hsc, fun s hs => ?_⟩
  rcases List.mem_append.mp hs with hs | hs
  · exact hc.2 s hs
  · rcases List.mem_singleton.mp hs with rfl
    exact hsc

theorem ctxUpdateEv_cur (c : Ctx) (p : Obj) (ev : REvent) (c' : Ctx)
    (h : ctxUpdateEv c p ev = .ok c')
    (hp : ∀ o, CurOk o → CurOk (mergeObj o p)) (hc : CtxCur c) : CtxCur c' := by
  obtain ⟨o, hf, hv, hc', hv2⟩ := ctxUpdateEv_ok c p ev c' h
  subst hc'
  have hco : CurOk (mergeObj o p) := hp o (hc.1 o hf)
  have hsc : StoreCur ⟨some (mergeObj o p), c.store.archived⟩ := by
    intro o' ho'
    injection ho' with ho'
    subst ho'
    exact hco
  refine ⟨hsc, fun s hs => ?_⟩
  rcases List.mem_append.mp hs with hs | hs
  · exact hc.2 s hs
  · rcases List.mem_singleton.mp hs with rfl
    exact hsc

theorem ctxArchive_cur (c : Ctx) (r : String) (c' : Ctx)
    (h : ctxArchive c r = .ok c') (hc : CtxCur c) : CtxCur c' := by
  obtain ⟨o, hf, hc'⟩ := ctxArchive_ok c r c' h
  subst hc'
  refine ⟨StoreCur_none _ rfl, fun s hs => ?_⟩
  rcases List.mem_append.mp hs with hs | hs
  · exact hc.2 s hs
  · rcases List.mem_singleton.mp hs with rfl
    exact StoreCur_none _ rfl

/-- The bookkeeping loop only ever appends `persistCurrent` events, and whenever
it rewrites the store it leaves a valid file behind. -/
theorem processNodes_spec (now : String) (maxSteps : Option Nat) (results : Obj)
    (nids : List String) (index : Nat) (c : Ctx) :
    (∀ c', processNodes now maxSteps results nids index c = .finished c' →
      (∃ ext, c'.events = c.events ++ ext ∧ onlyPersist ext) ∧
      (GoodStore c.store → GoodStore c'.store) ∧
      (index = 0 → CtxCur c → CtxCur c')) ∧
    (∀ e c', processNodes now maxSteps results nids index c = .raised e c' →
      (∃ ext, c'.events = c.events ++ ext ∧ onlyPersist ext) ∧
      (GoodStore c.store → GoodStore c'.store) ∧
      (index = 0 → CtxCur c → CtxCur c')) := by
  have hfin : ∀ c' : Ctx, c = c' →
      (∃ ext, c'.events = c.events ++ ext ∧ onlyPersist ext) ∧
      (GoodStore c.store → GoodStore c'.store) ∧
      (index = 0 → CtxCur c → CtxCur c') := by
    rintro c' rfl
    exact ⟨⟨[], by simp, onlyPersist_nil⟩, fun hg => hg, fun _ hc => hc⟩
  cases nids with
  | nil =>
      refine ⟨fun c' h => ?_, fun e c' h => StepLoopRes.noConfusion h⟩
      injection h with h
      exact hfin c' h
  | cons nid rest =>
      constructor
      · intro c' h
        rw [processNodes_cons] at h
        dsimp only at h
        split at h
        · injection h with h
          exact hfin c' h
        · split at h
          · exact StepLoopRes.noConfusion h
          · split at h
            · split at h
              · exact StepLoopRes.noConfusion h
              · exact StepLoopRes.noConfusion h
            · split at h
              · exact StepLoopRes.noConfusion h
              · split at h
                · exact StepLoopRes.noConfusion h
                · exact StepLoopRes.noConfusion h
      · intro e c' h
        rw [processNodes_cons] at h
        dsimp only at h
        split at h
        · exact StepLoopRes.noConfusion h
        · split at h
          · injection h with h1' h2'
            exact hfin c' h2'
          · split at h
            · split at h
              · injection h with h1' h2'
                exact hfin c' h2'
              · injection h with h1' h2'
                exact hfin c' h2'
            · split at h
              · injection h with h1' h2'
                exact hfin c' h2'
              · split at h
                · injection h with h1' h2'
                  exact hfin c' h2'
                · injection h with h1' h2'
                  subst h2'
                  rename_i c1 hupd
                  obtain ⟨o, hf, hv, hc1, hv2⟩ := ctxUpdateEv_ok c _ _ c1 hupd
                  refine ⟨⟨[REvent.persistCurrent index], by rw [hc1], ?_⟩,
                    fun _ => by rw [hc1]; exact ⟨_, rfl, hv2⟩, fun hidx hc => ?_⟩
                  · intro ev hev
                    rcases List.mem_singleton.mp hev with rfl
                    exact ⟨index, rfl⟩
                  · subst hidx
                    exact ctxUpdateEv_cur c _ _ c1 hupd
                      (fun o' hco => CurOk_persist o' _ hco) hc

/-- Event-log extension by `execNode` events only. -/
def ExecExt (evs evs' : List REvent) : Prop :=
  ∀ ev ∈ evs', ev ∈ evs ∨ ∃ i, ev = REvent.execNode i

theorem ExecExt.refl (evs : List REvent) : ExecExt evs evs :=
  fun ev hev => Or.inl hev

theorem ExecExt.comp (a b c : List REvent) (h1 : ExecExt a b) (h2 : ExecExt b c) :
    ExecExt a c := by
  intro ev hev
  rcases h2 ev hev with h | h
  · exact h1 ev h
  · exact Or.inr h

theorem execNodeById_ext (reg : List String) (nodes : List WNode)
    (nenv : Nat → ExecEnv) (t0 t1 : String) (results : Obj) (evs : List REvent)
    (nid : String) (results' : Obj) (evs' : List REvent)
    (h : execNodeById reg nodes nenv t0 t1 results evs nid = some (results', evs')) :
    ExecExt evs evs' := by
  unfold execNodeById at h
  rcases hfind : findNodeIdx nodes nid with _ | ⟨i, n⟩ <;> simp only [hfind] at h
  · exact Option.noConfusion h
  · simp only [Option.some.injEq, Prod.mk.injEq] at h
    obtain ⟨-, h2⟩ := h
    subst h2
    intro ev hev
    rcases List.mem_append.mp hev with h | h
    · exact Or.inl h
    · rcases List.mem_singleton.mp h with rfl
      exact Or.inr ⟨i, rfl⟩

theorem engineLinear_ext (reg : List String) (nodes : List WNode)
    (nenv : Nat → ExecEnv) (t0 t1 : String) (fuel : Nat) :
    ∀ (cur : Option String) (executed : List String) (results : Obj)
      (evs : List REvent) (results' : Obj) (evs' : List REvent),
      engineLinear reg nodes nenv t0 t1 fuel cur executed results evs
        = some (results', evs') → ExecExt evs evs' := by
  induction fuel with
  | zero => intro cur executed results evs results' evs' h; exact Option.noConfusion h
  | succ fuel ih =>
      intro cur executed results evs results' evs' h
      cases cur with
      | none =>
          simp only [engineLinear, Option.some.injEq, Prod.mk.injEq] at h
          obtain ⟨-, h2⟩ := h
          subst h2
          exact ExecExt.refl evs
      | some cname =>
          rw [engineLinear] at h
          split at h
          · simp only [Option.some.injEq, Prod.mk.injEq] at h
            obtain ⟨-, h2⟩ := h
            subst h2
            exact ExecExt.refl evs
          · split at h
            · exact Option.noConfusion h
            · rename_i rpair heq
              exact ExecExt.comp _ _ _
                (execNodeById_ext reg nodes nenv t0 t1 results evs cname _ _ heq)
                (ih _ _ _ _ _ _ h)

theorem execReady_ext (reg : List String) (nodes : List WNode)
    (nenv : Nat → ExecEnv) (t0 t1 : String) (ready : List String) :
    ∀ (executed pending : List String) (results : Obj) (evs : List REvent)
      (executed' pending' : List String) (results' : Obj) (evs' : List REvent),
      execReady reg nodes nenv t0 t1 ready executed pending results evs
        = some (executed', pending', results', evs') → ExecExt evs evs' := by
  induction ready with
  | nil =>
      intro executed pending results evs executed' pending' results' evs' h
      simp only [execReady, Option.some.injEq, Prod.mk.injEq] at h
      obtain ⟨-, -, -, h4⟩ := h
      subst h4
      exact ExecExt.refl evs
  | cons nid rest ih =>
      intro executed pending results evs executed' pending' results' evs' h
      rw [execReady] at h
      split at h
      · exact Option.noConfusion h
      · rename_i rpair heq
        exact ExecExt.comp _ _ _
          (execNodeById_ext reg nodes nenv t0 t1 results evs nid _ _ heq)
          (ih _ _ _ _ _ _ _ _ h)

theorem engineReady_ext (reg : List String) (nodes : List WNode)
    (nenv : Nat → ExecEnv) (t0 t1 : String) (fuel : Nat) :
    ∀ (executed pending : List String) (results : Obj) (evs : List REvent)
      (results' : Obj) (evs' : List REvent),
      engineReady reg nodes nenv t0 t1 fuel executed pending results evs
        = some (results', evs') → ExecExt evs evs' := by
  induction fuel with
  | zero => intro executed pending results evs results' evs' h; exact Option.noConfusion h
  | succ fuel ih =>
      intro executed pending results evs results' evs' h
      rw [engineReady] at h
      split at h
      · simp only [Option.some.injEq, Prod.mk.injEq] at h
        obtain ⟨-, h2⟩ := h
        subst h2
        exact ExecExt.refl evs
      · dsimp only at h
        split at h
        · exact Option.noConfusion h
        · split at h
          · exact Option.noConfusion h
          · rename_i quad heq
            exact ExecExt.comp _ _ _
              (execReady_ext reg nodes nenv t0 t1 _ _ _ _ _ _ _ _ _ heq)
              (ih _ _ _ _ _ _ h)

theorem execute_workflow_events (reg : List String) (nodes : List WNode)
    (nenv : Nat → ExecEnv) (wid t0 t1 : String) (evs : List REvent) (result : JVal)
    (h : execute_workflow reg nodes nenv wid t0 t1 = some (evs, result)) :
    onlyExec evs := by
  unfold execute_workflow at h
  dsimp only at h
  split at h
  · simp only [Option.some.injEq, Prod.mk.injEq] at h
    obtain ⟨h1, -⟩ := h
    subst h1
    exact onlyExec_nil
  · split at h
    · exact Option.noConfusion h
    · rename_i pair heq
      simp only [Option.some.injEq, Prod.mk.injEq] at h
      obtain ⟨h1, -⟩ := h
      subst h1
      intro ev hev
      rcases engineLinear_ext reg nodes nenv t0 t1 _ _ _ _ _ _ _ heq ev hev with h | h
      · cases h
      · exact h
  · split at h
    · exact Option.noConfusion h
    · rename_i pair heq
      simp only [Option.some.injEq, Prod.mk.injEq] at h
      obtain ⟨h1, -⟩ := h
      subst h1
      intro ev hev
      rcases engineReady_ext reg nodes nenv t0 t1 _ _ _ _ _ _ _ heq ev hev with h | h
      · cases h
      · exact h

/-- What `_execute_with_workflow_engine` guarantees about the event log (all
tool executions first, then bookkeeping/archive events) and the store. -/
def EweOk (c : Ctx) : EweRes → Prop
  | .stepsDone c' _ =>
      (∃ l1 l2, c'.events = c.events ++ l1 ++ l2 ∧ onlyExec l1 ∧ onlyPersist l2) ∧
      (GoodStore c.store → GoodStore c'.store) ∧ (CtxCur c → CtxCur c')
  | .failedState c' _ =>
      (∃ l1 l2, c'.events = c.events ++ l1 ++ l2 ∧ onlyExec l1 ∧ noExecTop l2) ∧
      (CtxCur c → CtxCur c')
  | .exn _ c' =>
      (∃ l1 l2, c'.events = c.events ++ l1 ++ l2 ∧ onlyExec l1 ∧ noExecTop l2) ∧
      (GoodStore c.store → GoodStore c'.store) ∧ (CtxCur c → CtxCur c')
  | .hang => True

theorem eweFail_ok (e : PyExc) (c2 : Ctx) (c : Ctx)
    (hev : ∃ l1 l2, c2.events = c.events ++ l1 ++ l2 ∧ onlyExec l1 ∧ noExecTop l2)
    (hgood : GoodStore c.store → GoodStore c2.store)
    (hcur2 : CtxCur c → CtxCur c2) :
    EweOk c (eweFail e c2) := by
  obtain ⟨l1, l2, hevs, hl1, hl2⟩ := hev
  have hp : ∀ (o : Obj), CurOk o → CurOk (mergeObj o
      (if strStartsWith e.msg "execution_step_failed"
          ∨ strContains e.msg "MAX_EXECUTED_STEPS" then
        [("status", .str "FAILED"), ("error", .str e.msg),
         ("failure_cause", .str "execution_step_failed")]
      else
        [("status", .str "FAILED"), ("error", .str e.msg),
         ("failure_cause", .str "controller_error")])) := by
    intro o hco
    split <;> exact CurOk_frame _ _ rfl rfl hco
  unfold eweFail
  split
  · dsimp only
    split
    · exact ⟨⟨l1, l2, hevs, hl1, hl2⟩, hgood, hcur2⟩
    · rename_i c3 hupd
      obtain ⟨o, hf, hv, hc3, hv2⟩ := ctxUpdate_ok c2 _ c3 hupd
      split
      · rename_i e4 harc
        refine ⟨⟨l1, l2, ?_, hl1, hl2⟩, fun _ => ?_,
          fun hc => ctxUpdate_cur c2 _ c3 hupd hp (hcur2 hc)⟩
        · rw [hc3]; exact hevs
        · rw [hc3]; exact ⟨_, rfl, hv2⟩
      · rename_i c4 harc
        refine ⟨⟨l1, l2 ++ [.archived (if strStartsWith e.msg "execution_step_failed"
            ∨ strContains e.msg "MAX_EXECUTED_STEPS" then "failed_execute"
            else "error")], ?_, hl1, ?_⟩,
          fun hc => ctxArchive_cur c3 _ c4 harc
            (ctxUpdate_cur c2 _ c3 hupd hp (hcur2 hc))⟩
        · obtain ⟨o2, hf2, hc4⟩ := ctxArchive_ok c3 _ c4 harc
          rw [hc4, hc3]
          dsimp only
          rw [hevs]
          simp [List.append_assoc]
        · exact noExecTop_append _ _ hl2 (noExecTop_archived _)
  · exact ⟨⟨l1, l2, hevs, hl1, hl2⟩, hgood, hcur2⟩

theorem ewe_spec (reg : List String) (env : RunEnv) (maxSteps : Option Nat)
    (now wid t0 t1 : String) (c : Ctx) (res : EweRes)
    (h : ewe reg env maxSteps now wid t0 t1 c = res) : EweOk c res := by
  subst h
  unfold ewe
  split
  · exact ⟨⟨[], [], by simp, onlyExec_nil, noExecTop_nil⟩, fun hg => hg,
      fun hc => hc⟩
  · split
    · exact ⟨⟨[], [], by simp, onlyExec_nil, onlyPersist_nil⟩, fun hg => hg,
        fun hc => hc⟩
    · split
      · trivial
      · rename_i pair evs result heq
        dsimp only
        split
        · split
          · rename_i c2 hpn
            obtain ⟨hext, hgood, hcur⟩ :=
              (processNodes_spec now maxSteps _ _ 0
                ⟨c.store, c.events ++ evs, c.snaps⟩).1 c2 hpn
            obtain ⟨ext, hevs, hop⟩ := hext
            refine ⟨⟨evs, ext, ?_, ?_, hop⟩, hgood, fun hc => hcur rfl hc⟩
            · rw [hevs]
            · exact execute_workflow_events reg _ env.nodeEnvs wid t0 t1 evs
                result heq
          · rename_i e2 c2 hpn
            obtain ⟨hext, hgood, hcur⟩ :=
              (processNodes_spec now maxSteps _ _ 0
                ⟨c.store, c.events ++ evs, c.snaps⟩).2 e2 c2 hpn
            obtain ⟨ext, hevs, hop⟩ := hext
            refine eweFail_ok e2 c2 c
              ⟨evs, ext, ?_, ?_, onlyPersist_noExecTop ext hop⟩ hgood
              (fun hc => hcur rfl hc)
            · rw [hevs]
            · exact execute_workflow_events reg _ env.nodeEnvs wid t0 t1 evs
                result heq
        · have honly : onlyExec evs :=
            execute_workflow_events reg _ env.nodeEnvs wid t0 t1 evs result heq
          have hp : ∀ (o : Obj), CurOk o → CurOk (mergeObj o
              [("status", JVal.str "FAILED"),
               ("error", JVal.str (match getKey (objOf result) "error" with
                 | some (.str s) => s
                 | some v => pyStr v
                 | none => "Workflow execution failed")),
               ("failure_cause", JVal.str "execution_step_failed")]) :=
            fun o hco => CurOk_frame _ _ rfl rfl hco
          split
          · exact ⟨⟨evs, [], by simp, honly, noExecTop_nil⟩, fun hg => hg,
              fun hc => hc⟩
          · rename_i c2 hupd
            obtain ⟨o, hf, hv, hc2, hv2⟩ :=
              ctxUpdate_ok ⟨c.store, c.events ++ evs, c.snaps⟩ _ c2 hupd
            split
            · rename_i e2 harc
              refine ⟨⟨evs, [], ?_, honly, noExecTop_nil⟩, fun _ => ?_,
                fun hc => ctxUpdate_cur _ _ c2 hupd hp hc⟩
              · rw [hc2]; simp
              · rw [hc2]; exact ⟨_, rfl, hv2⟩
            · rename_i c3 harc
              refine ⟨⟨evs, [.archived "failed_execute"], ?_, honly,
                noExecTop_archived _⟩,
                fun hc => ctxArchive_cur c2 _ c3 harc
                  (ctxUpdate_cur _ _ c2 hupd hp hc)⟩
              obtain ⟨o2, hf2, hc3⟩ := ctxArchive_ok c2 _ c3 harc
              rw [hc3, hc2]

theorem planner_generate_plan_ok (envPlan : Except PyExc JVal) (c c' : Ctx)
    (h : planner_generate_plan envPlan c = .ok c') :
    c'.events = c.events ∧ GoodStore c'.store ∧ (CtxCur c → CtxCur c') := by
  unfold planner_generate_plan at h
  repeat' split at h
  all_goals try exact Except.noConfusion h
  obtain ⟨o, hf, hv, hc, hv2⟩ := ctxUpdate_ok c _ c' h
  refine ⟨?_, ?_, fun hcur => ctxUpdate_cur c _ c' h
    (fun o' hco => CurOk_frame _ _ rfl rfl hco) hcur⟩
  · rw [hc]
  · rw [hc]; exact ⟨_, rfl, hv2⟩

theorem planPhase_ok (reg : List String) (env : RunEnv) (c1 c2 : Ctx)
    (h : planPhase reg env c1 = .ok c2) :
    c2.events = c1.events ∧ GoodStore c2.store ∧ (CtxCur c1 → CtxCur c2) := by
  unfold planPhase at h
  split at h
  · exact Except.noConfusion h
  · rename_i c2p hpg
    obtain ⟨hpgev, hpgood, hpgcur⟩ := planner_generate_plan_ok env.plan c1 c2p hpg
    repeat' split at h
    all_goals try exact Except.noConfusion h
    obtain ⟨o, hf, hv, hc2, hv2⟩ := ctxUpdate_ok c2p _ c2 h
    refine ⟨?_, ?_, fun hcur => ctxUpdate_cur c2p _ c2 h
      (fun o' hco => CurOk_frame _ _ rfl rfl hco) (hpgcur hcur)⟩
    · rw [hc2]; exact hpgev
    · rw [hc2]; exact ⟨_, rfl, hv2⟩

/-- What the `try:` body of `run_task` guarantees: the event log is an
execution phase followed by bookkeeping/archival events (never `topCatch`);
when an exception escapes to the top-level handler the store still holds a
valid task file; and starting from a store whose task file (if any) satisfies
the step invariant, every persisted state still does. -/
def BodyOk (st0 : Store) : RunTry → Prop
  | .done c _ _ => (∃ l1 l2, c.events = l1 ++ l2 ∧ onlyExec l1 ∧ noExecTop l2) ∧
      (StoreCur st0 → CtxCur c)
  | .exn _ c => (∃ l1 l2, c.events = l1 ++ l2 ∧ onlyExec l1 ∧ noExecTop l2) ∧
      GoodStore c.store ∧ (StoreCur st0 → CtxCur c)
  | .hang => True

theorem run_task_body_spec (reg : List String) (env : RunEnv)
    (taskId now wid t0 t1 goal : String) (st0 : Store) (res : RunTry)
    (h : run_task_body reg env taskId now wid t0 t1 goal st0 = res) :
    BodyOk st0 res := by
  subst h
  unfold run_task_body
  dsimp only
  rw [ctxCreate_ok]
  dsimp only
  have hc1good : GoodStore (Store.mk (some (create_state
      [("goal", .str goal), ("domain", .str "general"),
       ("constraints", .arr []), ("next_steps", .arr [])] taskId now))
      st0.archived) :=
    ⟨_, rfl, missingFields_create _ _ _⟩
  have hc1cur : StoreCur st0 → CtxCur ⟨Store.mk (some (create_state
      [("goal", .str goal), ("domain", .str "general"),
       ("constraints", .arr []), ("next_steps", .arr [])] taskId now))
      st0.archived, [],
      [] ++ [Store.mk (some (create_state
        [("goal", .str goal), ("domain", .str "general"),
         ("constraints", .arr []), ("next_steps", .arr [])] taskId now))
        st0.archived]⟩ := by
    intro _
    have hsc : StoreCur (Store.mk (some (create_state
        [("goal", .str goal), ("domain", .str "general"),
         ("constraints", .arr []), ("next_steps", .arr [])] taskId now))
        st0.archived) := by
      intro o ho
      injection ho with ho
      subst ho
      exact CurOk_create _ _ _
    refine ⟨hsc, fun s hs => ?_⟩
    rcases List.mem_singleton.mp hs with rfl
    exact hsc
  have hinvplan : ∀ (o : Obj) (emsg : String), CurOk o → CurOk (mergeObj o
      [("status", JVal.str "FAILED"), ("error", JVal.str emsg),
       ("failure_cause", JVal.str "planning_invalid")]) :=
    fun o emsg hco => CurOk_frame _ _ rfl rfl hco
  split
  · rename_i e hpl
    split
    · split
      · rename_i e2 hupd
        exact ⟨⟨[], [], by simp, onlyExec_nil, noExecTop_nil⟩, hc1good, hc1cur⟩
      · rename_i c2 hupd
        obtain ⟨o, hf, hv, hc2, hv2⟩ := ctxUpdate_ok _ _ c2 hupd
        split
        · rename_i e2 harc
          refine ⟨⟨[], [], ?_, onlyExec_nil, noExecTop_nil⟩, ?_, fun hst =>
            ctxUpdate_cur _ _ c2 hupd (fun o' hco => hinvplan o' _ hco)
              (hc1cur hst)⟩
          · simp [hc2]
          · rw [hc2]; exact ⟨_, rfl, hv2⟩
        · rename_i c3 harc
          refine ⟨⟨[], [.archived "failed_plan"], ?_, onlyExec_nil,
            noExecTop_archived _⟩, fun hst => ctxArchive_cur c2 _ c3 harc
              (ctxUpdate_cur _ _ c2 hupd (fun o' hco => hinvplan o' _ hco)
                (hc1cur hst))⟩
          obtain ⟨o2, hf2, hc3⟩ := ctxArchive_ok c2 _ c3 harc
          rw [hc3, hc2]
    · exact ⟨⟨[], [], by simp, onlyExec_nil, noExecTop_nil⟩, hc1good, hc1cur⟩
  · rename_i c2 hpl
    obtain ⟨hplev, hplgood, hplcur⟩ := planPhase_ok reg env _ c2 hpl
    have hc2ev : c2.events = [] := hplev
    have hewe := ewe_spec reg env none now wid t0 t1 c2 _ rfl
    split
    · trivial
    · rename_i e c3 hew
      rw [hew] at hewe
      obtain ⟨⟨l1, l2, hevs, hl1, hl2⟩, hgood, hcur⟩ := hewe
      exact ⟨⟨l1, l2, by rw [hevs, hc2ev]; simp, hl1, hl2⟩, hgood hplgood,
        fun hst => hcur (hplcur (hc1cur hst))⟩
    · rename_i c3 lastErr hew
      rw [hew] at hewe
      obtain ⟨⟨l1, l2, hevs, hl1, hl2⟩, hcur⟩ := hewe
      exact ⟨⟨l1, l2, by rw [hevs, hc2ev]; simp, hl1, hl2⟩,
        fun hst => hcur (hplcur (hc1cur hst))⟩
    · rename_i c3 n hew
      rw [hew] at hewe
      obtain ⟨⟨l1, l2, hevs, hl1, hl2⟩, hgood, hcur⟩ := hewe
      have hc3good : GoodStore c3.store := hgood hplgood
      have hc3cur : StoreCur st0 → CtxCur c3 :=
        fun hst => hcur (hplcur (hc1cur hst))
      have hc3ev : c3.events = l1 ++ l2 := by rw [hevs, hc2ev]; simp
      have hpc : ∀ (o : Obj), CurOk o →
          CurOk (mergeObj o [("status", JVal.str "COMPLETED")]) :=
        fun o hco => CurOk_frame _ _ rfl rfl hco
      split
      · rename_i e hupd
        exact ⟨⟨l1, l2, hc3ev, hl1, onlyPersist_noExecTop l2 hl2⟩, hc3good,
          hc3cur⟩
      · rename_i c4 hupd
        obtain ⟨o, hf, hv, hc4, hv2⟩ := ctxUpdate_ok c3 _ c4 hupd
        split
        · rename_i e harc
          refine ⟨⟨l1, l2, ?_, hl1, onlyPersist_noExecTop l2 hl2⟩, ?_,
            fun hst => ctxUpdate_cur c3 _ c4 hupd hpc (hc3cur hst)⟩
          · rw [hc4]; exact hc3ev
          · rw [hc4]; exact ⟨_, rfl, hv2⟩
        · rename_i c5 harc
          refine ⟨⟨l1, l2 ++ [.archived "completed"], ?_, hl1,
            noExecTop_append _ _ (onlyPersist_noExecTop l2 hl2)
              (noExecTop_archived _)⟩,
            fun hst => ctxArchive_cur c4 _ c5 harc
              (ctxUpdate_cur c3 _ c4 hupd hpc (hc3cur hst))⟩
          obtain ⟨o2, hf2, hc5⟩ := ctxArchive_ok c4 _ c5 harc
          rw [hc5, hc4]
          dsimp only
          rw [hc3ev]
          simp

theorem ctxUpdate_good_eq (c : Ctx) (p : Obj) (o : Obj)
    (hf : c.store.file = some o) (hv : missingFields o = []) :
    ctxUpdate c p = .ok ⟨⟨some (mergeObj o p), c.store.archived⟩, c.events,
      c.snaps ++ [⟨some (mergeObj o p), c.store.archived⟩]⟩ := by
  unfold ctxUpdate
  rw [update_task_good c.store o p hf hv]

/-- Under a valid task file, the top-level handler of `run_task` succeeds: it
returns the task id without raising, appends `topCatch` and the "error" archive
event, and archives the FAILED / controller_error state. -/
theorem runTopHandler_good (taskId : String) (e : PyExc) (c : Ctx) (o : Obj)
    (hf : c.store.file = some o) (hv : missingFields o = []) :
    ∃ c3, runTopHandler taskId e c =
        ⟨some taskId, none, c3, "FAILED", some (e.ty ++ ": " ++ e.msg)⟩ ∧
      c3.events = c.events ++ [.topCatch, .archived "error"] ∧
      c3.store.file = none ∧
      c3.store.archived = c.store.archived ++
        [(mergeObj o [("status", .str "FAILED"),
          ("error", .str (e.ty ++ ": " ++ e.msg)),
          ("failure_cause", .str "controller_error")], "error")] ∧
      c3.snaps = c.snaps ++
        [⟨some (mergeObj o [("status", .str "FAILED"),
          ("error", .str (e.ty ++ ": " ++ e.msg)),
          ("failure_cause", .str "controller_error")]), c.store.archived⟩,
         ⟨none, c.store.archived ++
          [(mergeObj o [("status", .str "FAILED"),
            ("error", .str (e.ty ++ ": " ++ e.msg)),
            ("failure_cause", .str "controller_error")], "error")]⟩] := by
  unfold runTopHandler
  dsimp only
  rw [ctxUpdate_good_eq ⟨c.store, c.events ++ [REvent.topCatch], c.snaps⟩
    [("status", JVal.str "FAILED"), ("error", JVal.str (e.ty ++ ": " ++ e.msg)),
     ("failure_cause", JVal.str "controller_error")] o hf hv]
  dsimp only
  rw [ctxArchive_good _ "error" (mergeObj o _) rfl]
  exact ⟨_, rfl, by simp, rfl, rfl, by simp⟩

/-- The events appended by the top-level handler, in every outcome. -/
theorem runTopHandler_events (taskId : String) (e : PyExc) (c : Ctx) :
    (runTopHandler taskId e c).ctx.events = c.events ++ [.topCatch] ∨
    (runTopHandler taskId e c).ctx.events =
      c.events ++ [.topCatch, .archived "error"] := by
  unfold runTopHandler
  dsimp only
  split
  · exact Or.inl rfl
  · rename_i c2 hupd
    obtain ⟨o, hf, hv, hc2, hv2⟩ := ctxUpdate_ok _ _ c2 hupd
    split
    · left; rw [hc2]
    · rename_i c3 harc
      obtain ⟨o2, hf2, hc3⟩ := ctxArchive_ok c2 _ c3 harc
      right
      rw [hc3, hc2]
      simp

/-- C3 (corrected): the controller does not persist `current_step` before each
tool execution; instead the engine executes every tool first and the
bookkeeping loop persists afterwards.  In every terminating run the event log
splits into a prefix with no `persistCurrent` event (the execution phase) and a
suffix with no `execNode` event (the bookkeeping/archival phase). -/
theorem claim_C3 (reg : List String) (env : RunEnv)
    (taskId now wid t0 t1 goal : String) (st0 : Store) (evs : List REvent)
    (h : (run_task_model reg env taskId now wid t0 t1 goal st0).map
        (fun r => r.ctx.events) = some evs) :
    ∃ l1 l2, evs = l1 ++ l2 ∧
      (∀ i, REvent.persistCurrent i ∉ l1) ∧
      (∀ i, REvent.execNode i ∉ l2) := by
  rcases hb : run_task_body reg env taskId now wid t0 t1 goal st0 with
    ⟨c, state, le⟩ | ⟨e, c⟩ | _
  · obtain ⟨⟨l1, l2, hevs, hl1, hl2⟩, -⟩ :=
      run_task_body_spec reg env taskId now wid t0 t1 goal st0 _ hb
    unfold run_task_model at h
    rw [hb] at h
    simp only [Option.map_some'] at h
    injection h with h
    subst h
    refine ⟨l1, l2, hevs, fun i hmem => ?_, fun i hmem => ?_⟩
    · obtain ⟨j, hj⟩ := hl1 _ hmem
      exact REvent.noConfusion hj
    · exact (hl2 _ hmem).1 i rfl
  · obtain ⟨⟨l1, l2, hevs, hl1, hl2⟩, hg, -⟩ :=
      run_task_body_spec reg env taskId now wid t0 t1 goal st0 _ hb
    unfold run_task_model at h
    rw [hb] at h
    simp only [Option.map_some'] at h
    injection h with h
    subst h
    have hnoP : ∀ i, REvent.persistCurrent i ∉ l1 := by
      intro i hmem
      obtain ⟨j, hj⟩ := hl1 _ hmem
      exact REvent.noConfusion hj
    have hnoE2 : ∀ (suffix : List REvent),
        (∀ ev ∈ suffix, ∀ i, ev ≠ REvent.execNode i) →
        ∀ i, REvent.execNode i ∉ l2 ++ suffix := by
      intro suffix hs i hmem
      rcases List.mem_append.mp hmem with hm | hm
      · exact (hl2 _ hm).1 i rfl
      · exact hs _ hm i rfl
    rcases runTopHandler_events taskId e c with hre | hre
    · refine ⟨l1, l2 ++ [.topCatch], ?_, hnoP, hnoE2 _ ?_⟩
      · rw [hre, hevs]; simp
      · intro ev hm i
        rcases List.mem_singleton.mp hm with rfl
        exact fun hcon => REvent.noConfusion hcon
    · refine ⟨l1, l2 ++ [.topCatch, .archived "error"], ?_, hnoP, hnoE2 _ ?_⟩
      · rw [hre, hevs]; simp
      · intro ev hm i
        rcases List.mem_cons.mp hm with rfl | hm2
        · exact fun hcon => REvent.noConfusion hcon
        · rcases List.mem_singleton.mp hm2 with rfl
          exact fun hcon => REvent.noConfusion hcon
  · unfold run_task_model at h
    rw [hb] at h
    exact Option.noConfusion h

theorem claim_C3_witness :
    (helloRun.map fun r => r.ctx.events) =
      some [.execNode 0, .persistCurrent 0, .topCatch, .archived "error"] ∧
    ∃ l1 l2, ([REvent.execNode 0, .persistCurrent 0, .topCatch,
        .archived "error"] : List REvent) = l1 ++ l2 ∧
      (∀ i, REvent.persistCurrent i ∉ l1) ∧
      (∀ i, REvent.execNode i ∉ l2) :=
  ⟨by decide, claim_C3 defaultReg helloEnv "task_hello" "NOW" "wf" "T0" "T1"
    ("Return exactly: " ++ helloText) Store.empty _ (by decide)⟩

/-- C6 (confirmed): `run_task` never raises — every terminating run returns the
task_id — and whenever the top-level handler fires (a `topCatch` event), the
task is archived with reason "error" and the archived state carries
status=FAILED, failure_cause="controller_error" and a human-readable error
message that is also the run's recorded last error. -/
theorem claim_C6 (reg : List String) (env : RunEnv)
    (taskId now wid t0 t1 goal : String) (st0 : Store) (r : RunResult)
    (h : run_task_model reg env taskId now wid t0 t1 goal st0 = some r) :
    r.raised = none ∧ r.returned = some taskId ∧
    (REvent.topCatch ∈ r.ctx.events →
      r.state = "FAILED" ∧
      ∃ o, (o, "error") ∈ r.ctx.store.archived ∧
        getKey o "status" = some (.str "FAILED") ∧
        getKey o "failure_cause" = some (.str "controller_error") ∧
        ∃ m, getKey o "error" = some (.str m) ∧ r.lastErr = some m) := by
  rcases hb : run_task_body reg env taskId now wid t0 t1 goal st0 with
    ⟨c, state, le⟩ | ⟨e, c⟩ | _
  · obtain ⟨⟨l1, l2, hevs, hl1, hl2⟩, -⟩ :=
      run_task_body_spec reg env taskId now wid t0 t1 goal st0 _ hb
    unfold run_task_model at h
    rw [hb] at h
    injection h with h
    subst h
    refine ⟨rfl, rfl, fun htc => absurd htc ?_⟩
    intro hmem
    dsimp only at hmem
    rw [hevs] at hmem
    rcases List.mem_append.mp hmem with hm | hm
    · obtain ⟨j, hj⟩ := hl1 _ hm
      exact REvent.noConfusion hj
    · exact (hl2 _ hm).2 rfl
  · obtain ⟨⟨l1, l2, hevs, hl1, hl2⟩, hg, -⟩ :=
      run_task_body_spec reg env taskId now wid t0 t1 goal st0 _ hb
    obtain ⟨o, hf, hv⟩ := hg
    obtain ⟨c3, hrth, hev3, hfile3, harc3, -⟩ := runTopHandler_good taskId e c o hf hv
    unfold run_task_model at h
    rw [hb] at h
    dsimp only at h
    rw [hrth] at h
    injection h with h
    subst h
    refine ⟨rfl, rfl, fun _ => ⟨rfl, mergeObj o
      [("status", .str "FAILED"), ("error", .str (e.ty ++ ": " ++ e.msg)),
       ("failure_cause", .str "controller_error")], ?_, ?_, ?_,
      e.ty ++ ": " ++ e.msg, ?_, rfl⟩⟩
    · dsimp only
      rw [harc3]
      simp
    · exact getKey_mergeObj_of_some o _ (by simp) _ _ rfl
    · exact getKey_mergeObj_of_some o _ (by simp) _ _ rfl
    · exact getKey_mergeObj_of_some o _ (by simp) _ _ rfl
  · unfold run_task_model at h
    rw [hb] at h
    exact Option.noConfusion h

theorem claim_C6_witness :
    ∃ r, run_task_model defaultReg helloEnv "task_hello" "NOW" "wf" "T0" "T1"
        ("Return exactly: " ++ helloText) Store.empty = some r ∧
      r.raised = none ∧ r.returned = some "task_hello" ∧
      REvent.topCatch ∈ r.ctx.events ∧ r.state = "FAILED" ∧
      ∃ o, (o, "error") ∈ r.ctx.store.archived ∧
        getKey o "failure_cause" = some (.str "controller_error") := by
  rcases hr : run_task_model defaultReg helloEnv "task_hello" "NOW" "wf" "T0" "T1"
      ("Return exactly: " ++ helloText) Store.empty with _ | r
  · exact absurd hr (by decide)
  · obtain ⟨h1, h2, h3⟩ := claim_C6 defaultReg helloEnv "task_hello" "NOW" "wf"
      "T0" "T1" ("Return exactly: " ++ helloText) Store.empty r hr
    have htc : REvent.topCatch ∈ r.ctx.events := by
      have : r.ctx.events = [.execNode 0, .persistCurrent 0, .topCatch,
          .archived "error"] := by
        have hmap : (run_task_model defaultReg helloEnv "task_hello" "NOW" "wf"
            "T0" "T1" ("Return exactly: " ++ helloText) Store.empty).map
              (fun r => r.ctx.events) =
            some [.execNode 0, .persistCurrent 0, .topCatch, .archived "error"] := by
          decide
        rw [hr, Option.map_some'] at hmap
        injection hmap
      rw [this]
      simp
    obtain ⟨hst, o, hoarc, -, hfc, -⟩ := h3 htc
    exact ⟨r, rfl, h1, h2, htc, hst, o, hoarc, hfc⟩

/-!
Fixture for the FAILED-step classification: a two-step plan in which the first
step's tool raises a generic RuntimeError and the second step's tool succeeds.
-/

def errEnv : RunEnv :=
  { plan := .ok (.obj [("tasks", .arr [planStep "1" "step one" [],
      planStep "2" "step two" ["1"]])]),
    preSel := fun _ => .ok helloSelection,
    convSel := fun _ => .ok helloSelection,
    nodeEnvs := fun i =>
      if i = 0 then ⟨.ok helloSelection, .error ⟨"RuntimeError", "boom"⟩⟩
      else ⟨.ok helloSelection, .ok (.str "ok")⟩ }

def errRun : Option RunResult :=
  run_task_model defaultReg errEnv "task_err" "NOW" "wf" "T0" "T1" "goal"
    Store.empty

/-- C7 counterexample: the claim fails as stated.  When the first step's tool
raises a generic error, the executor's FAILED outcome is classified as
`failure_cause="controller_error"` with archive reason "error" — not
`execution_step_failed`/"failed_execute" — and the engine still executes the
second step's tool (`execNode 1`) because all tools run before the
bookkeeping loop classifies the first failure. -/
theorem claim_C7_counterexample :
    (errRun.map fun r => r.state) = some "FAILED" ∧
    (errRun.map fun r => r.lastErr) = some (some "boom") ∧
    (errRun.map fun r =>
        r.ctx.store.archived.map (fun p => (getKey p.1 "failure_cause", p.2))) =
      some [(some (.str "controller_error"), "error")] ∧
    (errRun.map fun r => decide (REvent.execNode 1 ∈ r.ctx.events)) =
      some true := by
  refine ⟨by decide, by decide, by decide, by decide⟩

/-- Concrete valid store and engine-results fixtures for the C7 witness. -/
def wGood : Obj := create_state [] "t" "N"

def wStore : Store := ⟨some wGood, []⟩

def wResultsC7 : Obj := [("n1", .obj [("status", .str "FAILED"),
  ("tool", .str "none")])]

/-- C7 (corrected): the classification split of `_execute_with_workflow_engine`.
A RuntimeError whose message starts with "execution_step_failed" or contains
"MAX_EXECUTED_STEPS" is persisted as failure_cause="execution_step_failed" and
archived with reason "failed_execute"; every other RuntimeError (e.g. a tool
execution error surfaced by the executor) is persisted as
failure_cause="controller_error" and archived with reason "error".  Only a
FAILED outcome with tool "none" produces the "execution_step_failed" message
in the bookkeeping loop. -/
theorem claim_C7 :
    (∀ e c o, e.ty = "RuntimeError" →
      (strStartsWith e.msg "execution_step_failed"
        ∨ strContains e.msg "MAX_EXECUTED_STEPS") →
      c.store.file = some o → missingFields o = [] →
      ∃ c', eweFail e c = .failedState c' e.msg ∧ c'.store.file = none ∧
        c'.store.archived = c.store.archived ++ [(mergeObj o
          [("status", .str "FAILED"), ("error", .str e.msg),
           ("failure_cause", .str "execution_step_failed")], "failed_execute")]) ∧
    (∀ e c o, e.ty = "RuntimeError" →
      ¬(strStartsWith e.msg "execution_step_failed"
        ∨ strContains e.msg "MAX_EXECUTED_STEPS") →
      c.store.file = some o → missingFields o = [] →
      ∃ c', eweFail e c = .failedState c' e.msg ∧ c'.store.file = none ∧
        c'.store.archived = c.store.archived ++ [(mergeObj o
          [("status", .str "FAILED"), ("error", .str e.msg),
           ("failure_cause", .str "controller_error")], "error")]) ∧
    (∀ now results nid rest c nr,
      getKey results nid = some (.obj nr) →
      getKey nr "status" = some (.str "FAILED") →
      getKey nr "tool_name" = none →
      getKey nr "tool" = some (.str "none") →
      processNodes now none results (nid :: rest) 0 c =
        .raised ⟨"RuntimeError", "execution_step_failed: no_tool"⟩ c) := by
  refine ⟨?_, ?_, ?_⟩
  · intro e c o hty his hf hv
    unfold eweFail
    rw [if_pos hty]
    dsimp only
    rw [if_pos his, if_pos his]
    rw [ctxUpdate_good_eq c _ o hf hv]
    dsimp only
    rw [ctxArchive_good _ _ (mergeObj o _) rfl]
    exact ⟨_, rfl, rfl, rfl⟩
  · intro e c o hty his hf hv
    unfold eweFail
    rw [if_pos hty]
    dsimp only
    rw [if_neg his, if_neg his]
    rw [ctxUpdate_good_eq c _ o hf hv]
    dsimp only
    rw [ctxArchive_good _ _ (mergeObj o _) rfl]
    exact ⟨_, rfl, rfl, rfl⟩
  · intro now results nid rest c nr h1 h2 h3 h4
    rw [processNodes_cons]
    dsimp only
    rw [if_neg (by simp)]
    rw [if_neg (by decide : ¬ (0 ≥ 100))]
    simp only [h1, h2, h3, h4, objOf, Option.getD, pyOr]
    simp [truthy]

theorem claim_C7_witness :
    (∃ c', eweFail ⟨"RuntimeError", "execution_step_failed: no_tool"⟩
        ⟨wStore, [], []⟩ = .failedState c' "execution_step_failed: no_tool" ∧
      c'.store.file = none ∧
      c'.store.archived = [] ++ [(mergeObj wGood
        [("status", .str "FAILED"),
         ("error", .str "execution_step_failed: no_tool"),
         ("failure_cause", .str "execution_step_failed")], "failed_execute")]) ∧
    (∃ c', eweFail ⟨"RuntimeError", "boom"⟩ ⟨wStore, [], []⟩ =
        .failedState c' "boom" ∧
      c'.store.file = none ∧
      c'.store.archived = [] ++ [(mergeObj wGood
        [("status", .str "FAILED"), ("error", .str "boom"),
         ("failure_cause", .str "controller_error")], "error")]) ∧
    processNodes "N" none wResultsC7 ["n1"] 0 ⟨wStore, [], []⟩ =
      .raised ⟨"RuntimeError", "execution_step_failed: no_tool"⟩ ⟨wStore, [], []⟩ :=
  ⟨claim_C7.1 ⟨"RuntimeError", "execution_step_failed: no_tool"⟩ ⟨wStore, [], []⟩
      wGood rfl (Or.inl (by decide)) rfl (by decide),
   claim_C7.2.1 ⟨"RuntimeError", "boom"⟩ ⟨wStore, [], []⟩ wGood rfl (by decide)
      rfl (by decide),
   claim_C7.2.2 "N" wResultsC7 "n1" [] ⟨wStore, [], []⟩
      [("status", .str "FAILED"), ("tool", .str "none")]
      (by decide) (by decide) (by decide) (by decide)⟩

/-!
Resume fixtures: a crashed state whose `current_step` lacks a description, and
a terminal state.
-/

def c5Store : Store := ⟨some (mergeObj (create_state [] "t" "N")
  [("status", .str "IN_PROGRESS"), ("current_step", .obj [("index", .num 0)])]), []⟩

def c5TermStore : Store := ⟨some (mergeObj (create_state [] "t" "N")
  [("status", .str "COMPLETED")]), []⟩

def c5GoodState : Obj := mergeObj (create_state [] "t" "N")
  [("status", .str "IN_PROGRESS"),
   ("current_step", .obj [("index", .num 0), ("description", .str "step A")])]

/-- C5 counterexample: the claim fails as stated.  This persisted state has a
populated (truthy) `current_step` and non-terminal status IN_PROGRESS, yet
`resume_task` does not re-queue anything: because the in-flight step has no
`description`, it raises ValueError before any store mutation (no events, no
persisted snapshots, file unchanged). -/
theorem claim_C5_counterexample :
    (∃ o, c5Store.file = some o ∧ truthyOpt (getKey o "current_step") = true ∧
      getKey o "status" = some (.str "IN_PROGRESS")) ∧
    resume_task_model defaultReg helloEnv none "t" "N" "wf" "T0" "T1" c5Store =
      some ⟨none, some ⟨"ValueError",
        "Cannot resume task with incomplete current_step"⟩,
        ⟨c5Store, [], []⟩, "INITIALIZING", none⟩ := by
  refine ⟨⟨mergeObj (create_state [] "t" "N")
    [("status", .str "IN_PROGRESS"), ("current_step", .obj [("index", .num 0)])],
    rfl, by decide, by decide⟩, by decide⟩

/-- C5 (corrected): when the in-flight `current_step` has a non-empty
description, the re-queue step writes, in a single update, `current_step=None`,
status IN_PROGRESS, and `next_steps` with the step's description prepended as a
new first element — except that when the first pending step already carries
exactly that description, `next_steps` is left as it was.  And for a task whose
status is already COMPLETED or FAILED, `resume_task` raises ValueError without
touching the store. -/
theorem claim_C5 :
    (∀ state c cs d ns, getKey state "current_step" = some (.obj cs) →
      getKey cs "description" = some (.str d) → d ≠ "" →
      getKey state "next_steps" = some (.arr ns) →
      (∀ hd rest, ns = hd :: rest → ∃ hf, hd = .obj hf) →
      ∃ doPrepend ns', resumeRequeue state c =
          ctxUpdate c [("current_step", .null), ("next_steps", .arr ns'),
            ("status", .str "IN_PROGRESS")] ∧
        ns' = (if doPrepend then JVal.obj [("description", .str d)] :: ns else ns) ∧
        (doPrepend = false → ∃ hf rest, ns = .obj hf :: rest ∧
          (getKey hf "description").getD .null = .str d)) ∧
    (∀ reg env maxSteps taskId now wid t0 t1 st0 state,
      load_task st0 = .ok state →
      ((getKey state "status").getD .null = .str "COMPLETED" ∨
       (getKey state "status").getD .null = .str "FAILED") →
      resume_task_model reg env maxSteps taskId now wid t0 t1 st0 =
        some ⟨none, some ⟨"ValueError", "Task " ++ taskId
          ++ " is not resumable (status="
          ++ pyStr ((getKey state "status").getD .null) ++ ")"⟩,
          ⟨st0, [], []⟩, "INITIALIZING", none⟩) := by
  constructor
  · intro state c cs d ns hcs hdesc hd hns hdict
    unfold resumeRequeue
    rw [hcs]
    dsimp only
    rw [hdesc]
    rw [if_pos (by simpa [truthy] using hd)]
    rw [hns, Option.getD_some]
    cases ns with
    | nil =>
        exact ⟨true, JVal.obj [("description", .str d)] :: [], rfl, rfl,
          fun hcon => Bool.noConfusion hcon⟩
    | cons hd0 rest =>
        obtain ⟨hf, rfl⟩ := hdict hd0 rest rfl
        dsimp only
        by_cases heq : (getKey hf "description").getD JVal.null = JVal.str d
        · refine ⟨false, JVal.obj hf :: rest, ?_, rfl,
            fun _ => ⟨hf, rest, rfl, heq⟩⟩
          rw [if_neg (by simp [heq])]
        · refine ⟨true, JVal.obj [("description", .str d)] :: JVal.obj hf :: rest,
            ?_, rfl, fun hcon => Bool.noConfusion hcon⟩
          rw [if_pos (by simp [heq]), Option.getD_some]
  · intro reg env maxSteps taskId now wid t0 t1 st0 state hload hterm
    unfold resume_task_model
    rw [hload]
    dsimp only
    rw [if_pos hterm]

theorem claim_C5_witness :
    (∃ doPrepend ns', resumeRequeue c5GoodState ⟨c5Store, [], []⟩ =
        ctxUpdate ⟨c5Store, [], []⟩ [("current_step", .null),
          ("next_steps", .arr ns'), ("status", .str "IN_PROGRESS")] ∧
      ns' = (if doPrepend then JVal.obj [("description", .str "step A")] :: []
        else []) ∧
      (doPrepend = false → ∃ hf rest, ([] : List JVal) = .obj hf :: rest ∧
        (getKey hf "description").getD .null = .str "step A")) ∧
    resume_task_model defaultReg helloEnv none "t" "N" "wf" "T0" "T1"
        c5TermStore =
      some ⟨none, some ⟨"ValueError",
        "Task t is not resumable (status=COMPLETED)"⟩,
        ⟨c5TermStore, [], []⟩, "INITIALIZING", none⟩ := by
  refine ⟨claim_C5.1 c5GoodState ⟨c5Store, [], []⟩
      [("index", .num 0), ("description", .str "step A")] "step A" []
      (by decide) (by decide) (by decide) (by decide)
      (fun hd rest h => List.noConfusion h), ?_⟩
  have h2 := claim_C5.2 defaultReg helloEnv none "t" "N" "wf" "T0" "T1"
    c5TermStore (mergeObj (create_state [] "t" "N") [("status", .str "COMPLETED")])
    (by decide) (by decide)
  rw [h2]
  decide

/-!
C2: the step invariant over states the controller persists.
-/

/-- A state patch used to stage the C2 counterexample: a valid in-flight step
and a pending second step. -/
def c2Patch1 : Obj :=
  [("status", .str "IN_PROGRESS"),
   ("current_step", .obj [("index", .num 0), ("description", .str "step A")]),
   ("next_steps", .arr [.obj [("description", .str "step B"),
     ("tool", .str "text_output"),
     ("tool_params", .obj [("text", .str "B")])]])]

/-- create → update → (store-level) complete_step: a reachable on-disk state
with one completed step and no current step. -/
def c2Store3 : Option Store :=
  match create_task [] "t" "N" Store.empty with
  | .error _ => none
  | .ok (s1, _) =>
      match update_task false s1 c2Patch1 with
      | .error _ => none
      | .ok (s2, _) =>
          match complete_step "N2" s2 0 "success" .null .null .null with
          | .error _ => none
          | .ok (s3, _) => some s3

/-- C2 counterexample: the claim fails as stated.  A state reached through
`create_task`, `update_task` and the store's own `complete_step` satisfies the
invariant on disk (`stepInvB = true`), but resuming it persists — as the run's
single snapshot — a state whose `current_step` has index 0 while
`completed_steps` already holds one record: `len(completed_steps) = 1 ≠ 0`,
because the bookkeeping loop restarts its step index at 0 instead of
continuing after the completed steps. -/
theorem claim_C2_counterexample :
    c2Store3.map (fun s => s.file.map stepInvB) = some (some true) ∧
    (c2Store3.map (fun st => resume_task_model defaultReg helloEnv none "t"
        "N3" "wf" "T0" "T1" st)).map (fun orr => orr.map
          (fun r => r.ctx.snaps.map (fun s => s.file.map stepInvB))) =
      some (some [some false]) ∧
    (c2Store3.map (fun st => resume_task_model defaultReg helloEnv none "t"
        "N3" "wf" "T0" "T1" st)).map (fun orr => orr.map
          (fun r => r.ctx.snaps.map (fun s => s.file.map (fun o =>
            getKey o "current_step")))) =
      some (some [some (some (.obj [("index", .num 0),
        ("description", .str "step B")]))]) ∧
    (c2Store3.map (fun st => resume_task_model defaultReg helloEnv none "t"
        "N3" "wf" "T0" "T1" st)).map (fun orr => orr.map
          (fun r => r.ctx.snaps.map (fun s => s.file.map (fun o =>
            match getKey o "completed_steps" with
            | some (.arr l) => l.length
            | _ => 0)))) = some (some [some 1]) := by
  refine ⟨by decide, by decide, by decide, by decide⟩

/-- C2 (corrected): the spec's invariant does not hold for all reachable
states (see the counterexample), but a `run_task` started on an empty store
maintains it in every state it ever persists: `completed_steps` stays empty and
`current_step` is only ever null or the index-0 step, so
`len(completed_steps) == current_step.index` holds in every snapshot and in the
final on-disk state. -/
theorem claim_C2 (reg : List String) (env : RunEnv)
    (taskId now wid t0 t1 goal : String) (r : RunResult)
    (h : run_task_model reg env taskId now wid t0 t1 goal Store.empty = some r) :
    (∀ s ∈ r.ctx.snaps, ∀ o, s.file = some o → stepInvB o = true) ∧
    (∀ o, r.ctx.store.file = some o → stepInvB o = true) := by
  have hst0 : StoreCur Store.empty := StoreCur_none _ rfl
  rcases hb : run_task_body reg env taskId now wid t0 t1 goal Store.empty with
    ⟨c, state, le⟩ | ⟨e, c⟩ | _
  · obtain ⟨-, hcur⟩ :=
      run_task_body_spec reg env taskId now wid t0 t1 goal Store.empty _ hb
    unfold run_task_model at h
    rw [hb] at h
    injection h with h
    subst h
    obtain ⟨hstore, hsnaps⟩ := hcur hst0
    exact ⟨fun s hs o ho => CurOk_stepInvB o (hsnaps s hs o ho),
      fun o ho => CurOk_stepInvB o (hstore o ho)⟩
  · obtain ⟨-, hg, hcur⟩ :=
      run_task_body_spec reg env taskId now wid t0 t1 goal Store.empty _ hb
    obtain ⟨o, hf, hv⟩ := hg
    obtain ⟨c3, hrth, hev3, hfile3, harc3, hsnaps3⟩ :=
      runTopHandler_good taskId e c o hf hv
    unfold run_task_model at h
    rw [hb] at h
    dsimp only at h
    rw [hrth] at h
    injection h with h
    subst h
    obtain ⟨hstore, hsnaps⟩ := hcur hst0
    constructor
    · intro s hs o' ho'
      dsimp only at hs
      rw [hsnaps3] at hs
      rcases List.mem_append.mp hs with hs | hs
      · exact CurOk_stepInvB o' (hsnaps s hs o' ho')
      · rcases List.mem_cons.mp hs with rfl | hs2
        · dsimp only at ho'
          injection ho' with ho'
          subst ho'
          exact CurOk_stepInvB _ (CurOk_frame o _ rfl rfl (hstore o hf))
        · rcases List.mem_singleton.mp hs2 with rfl
          exact absurd ho' (by simp)
    · intro o' ho'
      dsimp only at ho'
      rw [hfile3] at ho'
      exact Option.noConfusion ho'
  · unfold run_task_model at h
    rw [hb] at h
    exact Option.noConfusion h

theorem claim_C2_witness :
    ∃ r, run_task_model defaultReg helloEnv "task_hello" "NOW" "wf" "T0" "T1"
        ("Return exactly: " ++ helloText) Store.empty = some r ∧
      (∀ s ∈ r.ctx.snaps, ∀ o, s.file = some o → stepInvB o = true) ∧
      (∀ o, r.ctx.store.file = some o → stepInvB o = true) := by
  rcases hr : run_task_model defaultReg helloEnv "task_hello" "NOW" "wf" "T0"
      "T1" ("Return exactly: " ++ helloText) Store.empty with _ | r
  · exact absurd hr (by decide)
  · exact ⟨r, rfl, claim_C2 defaultReg helloEnv "task_hello" "NOW" "wf" "T0"
      "T1" ("Return exactly: " ++ helloText) r hr⟩
